import Mathlib

/-!
Shallow embedding of the Yggdrasil core (grammar + engine crates) and proofs
about it.

The repository holds two revisions of the grammar crate:
* `src/grammar/src/lib.rs` — the tree-sitter-style grammar whose `Expr` type
  (with `Group`/`Group2`/`Group3` wrappers), `simplify`, `PartialEq` and
  `Hash` implementations are consumed by the engine crate
  (`src/engine/src/...`).  That `Expr` is embedded below at the root of the
  `Yggdrasil` namespace.
* `src/grammar/src/parser.rs` + `src/grammar/src/expr.rs` — the chumsky
  combinator parser and its own (group-free) `Expr`.  That revision is
  embedded in the `Yggdrasil.Chumsky` namespace further down.
-/

namespace Yggdrasil

/-- `Literal` struct from `src/grammar/src/lib.rs` (pattern `[A-Z][a-zA-Z0-9]*`). -/
structure Literal where
  lit : String
deriving DecidableEq, Repr

/-- `Generic` struct from `src/grammar/src/lib.rs` (pattern `[a-s][a-zA-Z0-9]*`). -/
structure Generic where
  lit : String
deriving DecidableEq, Repr

/-- `Variable` struct from `src/grammar/src/lib.rs` (pattern `[t-z][a-zA-Z0-9]*`). -/
structure Variable where
  var : String
deriving DecidableEq, Repr

/-- The `Expr` enum of `src/grammar/src/lib.rs` (the revision used by the
engine crate).  The `_token`/`_open_token`/`_close_token` unit fields are
dropped; variant order matches the source declaration order, which is what
`core::mem::discriminant` distinguishes. -/
inductive Expr where
  | Literal (l : Literal)
  | Variable (v : Variable)
  | Generic (g : Generic)
  | Tautology
  | Contradiction
  | Group (expr : Expr)
  | Group2 (expr : Expr)
  | Group3 (expr : Expr)
  | Function (func : Generic) (args : List Expr)
  | Predicate (pred : Literal) (args : List Expr)
  | Not (expr : Expr)
  | And (left : Expr) (right : Expr)
  | Or (left : Expr) (right : Expr)
  | Xor (left : Expr) (right : Expr)
  | Conditional (left : Expr) (right : Expr)
  | Biconditional (left : Expr) (right : Expr)
  | Universal (iter : Variable) (expr : Expr)
  | Existential (iter : Variable) (expr : Expr)
  | UnknownOperator (left : Expr) (operator : String) (right : Expr)
deriving Repr

/-- `Expr::simplify` from `src/grammar/src/lib.rs`: recursively unwrap the
three grouping variants at the top of the tree, return anything else as is. -/
def Expr.simplify : Expr → Expr
  | .Group e | .Group2 e | .Group3 e => e.simplify
  | e => e

/-- The declaration index of a variant, standing for
`core::mem::discriminant` on `Expr`. -/
def Expr.disc : Expr → Nat
  | .Literal _ => 0
  | .Variable _ => 1
  | .Generic _ => 2
  | .Tautology => 3
  | .Contradiction => 4
  | .Group _ => 5
  | .Group2 _ => 6
  | .Group3 _ => 7
  | .Function _ _ => 8
  | .Predicate _ _ => 9
  | .Not _ => 10
  | .And _ _ => 11
  | .Or _ _ => 12
  | .Xor _ _ => 13
  | .Conditional _ _ => 14
  | .Biconditional _ _ => 15
  | .Universal _ _ => 16
  | .Existential _ _ => 17
  | .UnknownOperator _ _ _ => 18

mutual
/-- `impl PartialEq for Expr` from `src/grammar/src/lib.rs`.  The source
matches on the pair `(self.simplify(), other.simplify())` and then compares
children with `==` (which simplifies again); here the group-unwrapping done
by those two `simplify()` calls is rendered as the six leading arms, and
`Expr.eq_simplify` below proves that this agrees with simplifying first. -/
def Expr.eq : Expr → Expr → Bool
  | .Group a, b => Expr.eq a b
  | .Group2 a, b => Expr.eq a b
  | .Group3 a, b => Expr.eq a b
  | a, .Group b => Expr.eq a b
  | a, .Group2 b => Expr.eq a b
  | a, .Group3 b => Expr.eq a b
  | .Literal l0, .Literal r0 => l0 == r0
  | .Variable l0, .Variable r0 => l0 == r0
  | .Generic l0, .Generic r0 => l0 == r0
  | .Tautology, .Tautology => true
  | .Contradiction, .Contradiction => true
  | .Function lf la, .Function rf ra => lf == rf && Expr.eqList la ra
  | .Predicate lp la, .Predicate rp ra => lp == rp && Expr.eqList la ra
  | .Not le, .Not re => Expr.eq le re
  | .And ll lr, .And rl rr => Expr.eq ll rl && Expr.eq lr rr
  | .Or ll lr, .Or rl rr => Expr.eq ll rl && Expr.eq lr rr
  | .Xor ll lr, .Xor rl rr => Expr.eq ll rl && Expr.eq lr rr
  | .Conditional ll lr, .Conditional rl rr => Expr.eq ll rl && Expr.eq lr rr
  | .Biconditional ll lr, .Biconditional rl rr => Expr.eq ll rl && Expr.eq lr rr
  | .Universal li le, .Universal ri re => li == ri && Expr.eq le re
  | .Existential li le, .Existential ri re => li == ri && Expr.eq le re
  | .UnknownOperator ll lop lr, .UnknownOperator rl rop rr =>
      Expr.eq ll rl && (lop == rop && Expr.eq lr rr)
  | _, _ => false

/-- Slice equality of the `args` vectors (`l_args == r_args` in the source):
equal length and elementwise `Expr` equality. -/
def Expr.eqList : List Expr → List Expr → Bool
  | [], [] => true
  | a :: as, b :: bs => Expr.eq a b && Expr.eqList as bs
  | _, _ => false
end

theorem Expr.sizeOf_simplify_le : (e : Expr) → sizeOf e.simplify ≤ sizeOf e
  | .Group x => by have := Expr.sizeOf_simplify_le x; simp [Expr.simplify]; omega
  | .Group2 x => by have := Expr.sizeOf_simplify_le x; simp [Expr.simplify]; omega
  | .Group3 x => by have := Expr.sizeOf_simplify_le x; simp [Expr.simplify]; omega
  | .Literal _ => by simp [Expr.simplify]
  | .Variable _ => by simp [Expr.simplify]
  | .Generic _ => by simp [Expr.simplify]
  | .Tautology => by simp [Expr.simplify]
  | .Contradiction => by simp [Expr.simplify]
  | .Function _ _ => by simp [Expr.simplify]
  | .Predicate _ _ => by simp [Expr.simplify]
  | .Not _ => by simp [Expr.simplify]
  | .And _ _ => by simp [Expr.simplify]
  | .Or _ _ => by simp [Expr.simplify]
  | .Xor _ _ => by simp [Expr.simplify]
  | .Conditional _ _ => by simp [Expr.simplify]
  | .Biconditional _ _ => by simp [Expr.simplify]
  | .Universal _ _ => by simp [Expr.simplify]
  | .Existential _ _ => by simp [Expr.simplify]
  | .UnknownOperator _ _ _ => by simp [Expr.simplify]

/-- One primitive value written into the `Hasher` by `impl Hash for Expr`
(`src/grammar/src/lib.rs`): a variant discriminant, a string field, or the
length prefix Rust writes when hashing a `Vec`.  Rust's `hash` method is a
stream of such writes; two values collide on every `Hasher` exactly when
their streams agree, so the stream itself is the embedded hash value. -/
inductive HashToken where
  | disc (n : Nat)
  | str (s : String)
  | len (n : Nat)
deriving DecidableEq, Repr

mutual
/-- `impl Hash for Expr` from `src/grammar/src/lib.rs`: the stream of
`Hasher` writes, or `none` where the source would execute the
`unreachable!()` panic arm.  The source binds `thing = self.simplify()` and
continues on `thing` (`Expr.hashThing`). -/
def Expr.hashTrace (e : Expr) : Option (List HashToken) :=
  Expr.hashThing e.simplify
termination_by 3 * sizeOf e + 2
decreasing_by
  all_goals
    have h1 := Expr.sizeOf_simplify_le e
    simp_wf
    omega

/-- The body of `Expr`'s `hash`: write `core::mem::discriminant(thing)`,
then the fields of the variant obtained by matching on `thing.simplify()`. -/
def Expr.hashThing (thing : Expr) : Option (List HashToken) := do
  let rest ← Expr.hashFields thing.simplify
  pure (HashToken.disc thing.disc :: rest)
termination_by 3 * sizeOf thing + 1
decreasing_by
  all_goals
    have h1 := Expr.sizeOf_simplify_le thing
    simp_wf
    omega

/-- The `match thing.simplify()` arms of `Expr`'s `hash`: field writes per
variant; the three `Group` arms are the source's `unreachable!()`. -/
def Expr.hashFields : Expr → Option (List HashToken)
  | .Literal l => some [HashToken.str l.lit]
  | .Variable v => some [HashToken.str v.var]
  | .Generic g => some [HashToken.str g.lit]
  | .Tautology => some []
  | .Contradiction => some []
  | .Group _ => none
  | .Group2 _ => none
  | .Group3 _ => none
  | .Function f args => do
      let ts ← Expr.hashTraceList args
      pure (HashToken.str f.lit :: HashToken.len args.length :: ts)
  | .Predicate p args => do
      let ts ← Expr.hashTraceList args
      pure (HashToken.str p.lit :: HashToken.len args.length :: ts)
  | .Not x => Expr.hashTrace x
  | .And l r => do pure ((← Expr.hashTrace l) ++ (← Expr.hashTrace r))
  | .Or l r => do pure ((← Expr.hashTrace l) ++ (← Expr.hashTrace r))
  | .Xor l r => do pure ((← Expr.hashTrace l) ++ (← Expr.hashTrace r))
  | .Conditional l r => do pure ((← Expr.hashTrace l) ++ (← Expr.hashTrace r))
  | .Biconditional l r => do pure ((← Expr.hashTrace l) ++ (← Expr.hashTrace r))
  | .Universal i x => do pure (HashToken.str i.var :: (← Expr.hashTrace x))
  | .Existential i x => do pure (HashToken.str i.var :: (← Expr.hashTrace x))
  | .UnknownOperator l op r => do
      pure ((← Expr.hashTrace l) ++ HashToken.str op :: (← Expr.hashTrace r))
termination_by t => 3 * sizeOf t
decreasing_by
  all_goals simp_wf <;> omega

/-- Hashing of the `args` vector: Rust's `Hash` for `Vec` writes the length
and then each element in order (the length write is issued by the caller,
matching `args.hash(state)`). -/
def Expr.hashTraceList : List Expr → Option (List HashToken)
  | [] => some []
  | a :: as => do pure ((← Expr.hashTrace a) ++ (← Expr.hashTraceList as))
termination_by l => 3 * sizeOf l + 2
decreasing_by
  all_goals simp_wf <;> omega
end

/-- The `ExprDiscriminants` enum generated by `strum::EnumDiscriminants` on
`Expr`: one nullary variant per `Expr` variant. -/
inductive ExprDiscriminants where
  | Literal
  | Variable
  | Generic
  | Tautology
  | Contradiction
  | Group
  | Group2
  | Group3
  | Function
  | Predicate
  | Not
  | And
  | Or
  | Xor
  | Conditional
  | Biconditional
  | Universal
  | Existential
  | UnknownOperator
deriving DecidableEq, Repr

/-- `ExprDiscriminants::from(&Expr)` (strum-generated). -/
def ExprDiscriminants.ofExpr : Expr → ExprDiscriminants
  | .Literal _ => .Literal
  | .Variable _ => .Variable
  | .Generic _ => .Generic
  | .Tautology => .Tautology
  | .Contradiction => .Contradiction
  | .Group _ => .Group
  | .Group2 _ => .Group2
  | .Group3 _ => .Group3
  | .Function _ _ => .Function
  | .Predicate _ _ => .Predicate
  | .Not _ => .Not
  | .And _ _ => .And
  | .Or _ _ => .Or
  | .Xor _ _ => .Xor
  | .Conditional _ _ => .Conditional
  | .Biconditional _ _ => .Biconditional
  | .Universal _ _ => .Universal
  | .Existential _ _ => .Existential
  | .UnknownOperator _ _ _ => .UnknownOperator

/-- `ValidationError` from `src/engine/src/error.rs`. -/
inductive ValidationError where
  | InvalidVariable (name : String)
  | InvalidStatementType (expected found : ExprDiscriminants)
deriving DecidableEq, Repr

/-- `EngineError` from `src/engine/src/error.rs`; the `ValidationError`
variant is the target of the `From<ValidationError>` conversion used by the
`Err(...)?` pattern throughout the engine. -/
inductive EngineError where
  | ValidationError (v : ValidationError)
  | NotSupported (feature : String)
deriving DecidableEq, Repr

/-- `EngineResult<T> = Result<T, EngineError>` from `src/engine/src/lib.rs`. -/
abbrev EngineResult (α : Type := Unit) := Except EngineError α

/-- `std::collections::HashSet<Expr>`, modelled as its insertion sequence:
a list never holding two elements that `Expr`'s (grouping-transparent)
`PartialEq` identifies. -/
abbrev ExprSet := List Expr

/-- `HashSet::contains`: some element of the set equals the probe under
`Expr`'s `PartialEq`. -/
def ExprSet.contains (s : ExprSet) (e : Expr) : Bool :=
  s.any fun x => Expr.eq x e

/-- `HashSet::insert`: a no-op when an equal element is already present. -/
def ExprSet.insert (s : ExprSet) (e : Expr) : ExprSet :=
  if s.contains e then s else s ++ [e]

/-- `HashSet::from([...])`: insert the array elements in order. -/
def ExprSet.ofList (l : List Expr) : ExprSet :=
  l.foldl ExprSet.insert []

/-- `BranchRule` from `src/engine/src/rules/branch.rs`. -/
inductive BranchRule where
  | Or
  | Nand
  | Conditional
  | Biconditional
  | NotBiconditional
deriving DecidableEq, Repr

/-- `BranchRule::decompose` from `src/engine/src/rules/branch.rs`:
decomposes an `Expr` into the two branch sets, first simplifying the input,
and on a shape mismatch fails with `InvalidStatementType(expected, actual)`
(wrapped into `EngineError` by the `Err(...)?` conversion). -/
def BranchRule.decompose (rule : BranchRule) (e : Expr) :
    EngineResult (ExprSet × ExprSet) :=
  let expr := e.simplify
  match rule with
  | .Or =>
    match expr with
    | .Or left right =>
        .ok (ExprSet.ofList [left.simplify], ExprSet.ofList [right.simplify])
    | _ =>
        .error (.ValidationError
          (.InvalidStatementType .Or (ExprDiscriminants.ofExpr expr)))
  | .Nand =>
    match expr with
    | .Not inner =>
      match inner.simplify with
      | .And left right =>
          .ok (ExprSet.ofList [left.simplify], ExprSet.ofList [right.simplify])
      | _ =>
          .error (.ValidationError
            (.InvalidStatementType .And (ExprDiscriminants.ofExpr inner.simplify)))
    | _ =>
        .error (.ValidationError
          (.InvalidStatementType .Not (ExprDiscriminants.ofExpr expr)))
  | .Conditional =>
    match expr with
    | .Conditional left right =>
        .ok (ExprSet.ofList [Expr.Not left.simplify],
             ExprSet.ofList [right.simplify])
    | _ =>
        .error (.ValidationError
          (.InvalidStatementType .Conditional (ExprDiscriminants.ofExpr expr)))
  | .Biconditional =>
    match expr with
    | .Biconditional left right =>
        .ok (ExprSet.ofList [left.simplify, right.simplify],
             ExprSet.ofList [Expr.Not left.simplify, Expr.Not right.simplify])
    | _ =>
        .error (.ValidationError
          (.InvalidStatementType .Biconditional (ExprDiscriminants.ofExpr expr)))
  | .NotBiconditional =>
    match expr with
    | .Not inner =>
      match inner.simplify with
      | .Biconditional left right =>
          .ok (ExprSet.ofList [left.simplify, Expr.Not right.simplify],
               ExprSet.ofList [Expr.Not left.simplify, right.simplify])
      | _ =>
          .error (.ValidationError
            (.InvalidStatementType .Biconditional
              (ExprDiscriminants.ofExpr inner.simplify)))
    | _ =>
        .error (.ValidationError
          (.InvalidStatementType .Not (ExprDiscriminants.ofExpr expr)))

/-- `HashSet<Variable>::insert` (`new_vars.insert(iter.clone())` in
`validate`): a no-op when the variable is already present. -/
def varsInsert (vars : List Variable) (v : Variable) : List Variable :=
  if v ∈ vars then vars else v :: vars

mutual
/-- `validate` from `src/engine/src/syntax/validate.rs`: the body is a
match on `expr.simplify()` (`validateSimplified`), threading the set of
bound variables top-down. -/
def validate (expr : Expr) (current_vars : List Variable) : EngineResult Unit :=
  validateSimplified expr.simplify current_vars
termination_by 2 * sizeOf expr + 1
decreasing_by
  all_goals
    have h1 := Expr.sizeOf_simplify_le expr
    simp_wf
    omega

/-- The `match expr.simplify()` arms of `validate`; the binary-connective
arms render `[left, right].into_iter().try_for_each(...)` as the two
short-circuited calls in order. -/
def validateSimplified : Expr → List Variable → EngineResult Unit
  | .Literal _, _ => .ok ()
  | .Generic _, _ => .error (.NotSupported "Generics")
  | .Variable v, current_vars =>
      if v ∈ current_vars then .ok ()
      else .error (.ValidationError (.InvalidVariable v.var))
  | .Tautology, _ => .ok ()
  | .Contradiction, _ => .ok ()
  | .Group x, current_vars => validate x current_vars
  | .Group2 x, current_vars => validate x current_vars
  | .Group3 x, current_vars => validate x current_vars
  | .Function _ args, current_vars => validateList args current_vars
  | .Predicate _ args, current_vars => validateList args current_vars
  | .Not x, current_vars => validate x current_vars
  | .And l r, current_vars => do
      validate l current_vars; validate r current_vars
  | .Or l r, current_vars => do
      validate l current_vars; validate r current_vars
  | .Xor l r, current_vars => do
      validate l current_vars; validate r current_vars
  | .Conditional l r, current_vars => do
      validate l current_vars; validate r current_vars
  | .Biconditional l r, current_vars => do
      validate l current_vars; validate r current_vars
  | .Universal i x, current_vars => validate x (varsInsert current_vars i)
  | .Existential i x, current_vars => validate x (varsInsert current_vars i)
  | .UnknownOperator l _ r, current_vars => do
      validate l current_vars; validate r current_vars
termination_by t _ => 2 * sizeOf t
decreasing_by
  all_goals simp_wf <;> omega

/-- `args.iter().try_for_each(|expr| validate(expr, current_vars.clone()))`. -/
def validateList : List Expr → List Variable → EngineResult Unit
  | [], _ => .ok ()
  | a :: as, vars => do validate a vars; validateList as vars
termination_by l _ => 2 * sizeOf l + 1
decreasing_by
  all_goals simp_wf <;> omega
end

/-- `validate_syntax` from `src/engine/src/syntax/validate.rs`: validate
with the default (empty) variable set. -/
def validate_syntax (expr : Expr) : EngineResult Unit :=
  validate expr []

/-- The `while let (Some(v), false) = (list.next(), found >= set.len())`
loop of `expr_list_starts_with` (`src/engine/src/util.rs`), with `found`
the count of matched elements so far: the loop exits as soon as either the
iterator is exhausted or the quota is reached, and the function then
returns `found >= set.len()`. -/
def expr_list_starts_with_go (set : ExprSet) : List Expr → Nat → Bool
  | [], found => decide (set.length ≤ found)
  | v :: rest, found =>
      if set.length ≤ found then true
      else if set.contains v then expr_list_starts_with_go set rest (found + 1)
      else false

/-- `expr_list_starts_with` from `src/engine/src/util.rs`. -/
def expr_list_starts_with (list : List Expr) (set : ExprSet) : Bool :=
  expr_list_starts_with_go set list 0

/-- The Rust hash stream of an `Option<Expr>` value (the dedup key `h`
computed by `expr_maybe_list_starts_with`): `Option`'s discriminant
followed, for `Some`, by the inner expression's hash stream. -/
def optionHashKey : Option Expr → Option (List HashToken)
  | none => some [HashToken.disc 0]
  | some e => do pure (HashToken.disc 1 :: (← e.hashTrace))

/-- The loop of `expr_maybe_list_starts_with` (`src/engine/src/util.rs`):
like `expr_list_starts_with_go`, but any `None` element fails immediately
and each matched element's hash is recorded in `matched` so a repeated
value cannot be counted twice. -/
def expr_maybe_list_starts_with_go (set : ExprSet) :
    List (Option Expr) → Nat → List (Option (List HashToken)) → Bool
  | [], found, _ => decide (set.length ≤ found)
  | v :: rest, found, matched =>
      if set.length ≤ found then true
      else
        let h := optionHashKey v
        match v with
        | some v' =>
            if set.contains v' && !(matched.contains h) then
              expr_maybe_list_starts_with_go set rest (found + 1) (h :: matched)
            else false
        | none => false

/-- `expr_maybe_list_starts_with` from `src/engine/src/util.rs`. -/
def expr_maybe_list_starts_with (list : List (Option Expr)) (set : ExprSet) : Bool :=
  expr_maybe_list_starts_with_go set list 0 []

/-- Whether the top node of an expression is one of the three grouping
wrappers (the shapes `Expr::simplify` is meant to remove). -/
def Expr.isGroupNode : Expr → Bool
  | .Group _ | .Group2 _ | .Group3 _ => true
  | _ => false

mutual
/-- The total hash stream of an expression, defined structurally (grouping
wrappers stripped everywhere, discriminants and fields in write order);
`Expr.hashTrace_eq_traceSpec` proves that `Expr.hashTrace` always succeeds
and produces exactly this stream. -/
def Expr.traceSpec : Expr → List HashToken
  | .Group x => Expr.traceSpec x
  | .Group2 x => Expr.traceSpec x
  | .Group3 x => Expr.traceSpec x
  | .Literal l => [.disc 0, .str l.lit]
  | .Variable v => [.disc 1, .str v.var]
  | .Generic g => [.disc 2, .str g.lit]
  | .Tautology => [.disc 3]
  | .Contradiction => [.disc 4]
  | .Function f args =>
      .disc 8 :: .str f.lit :: .len args.length :: Expr.traceSpecList args
  | .Predicate p args =>
      .disc 9 :: .str p.lit :: .len args.length :: Expr.traceSpecList args
  | .Not x => .disc 10 :: Expr.traceSpec x
  | .And l r => .disc 11 :: (Expr.traceSpec l ++ Expr.traceSpec r)
  | .Or l r => .disc 12 :: (Expr.traceSpec l ++ Expr.traceSpec r)
  | .Xor l r => .disc 13 :: (Expr.traceSpec l ++ Expr.traceSpec r)
  | .Conditional l r => .disc 14 :: (Expr.traceSpec l ++ Expr.traceSpec r)
  | .Biconditional l r => .disc 15 :: (Expr.traceSpec l ++ Expr.traceSpec r)
  | .Universal i x => .disc 16 :: .str i.var :: Expr.traceSpec x
  | .Existential i x => .disc 17 :: .str i.var :: Expr.traceSpec x
  | .UnknownOperator l op r =>
      .disc 18 :: (Expr.traceSpec l ++ HashToken.str op :: Expr.traceSpec r)

/-- Concatenated streams of a list of expressions. -/
def Expr.traceSpecList : List Expr → List HashToken
  | [] => []
  | a :: as => Expr.traceSpec a ++ Expr.traceSpecList as
end

mutual
/-- Two formulas differ only in (possibly nested) grouping wrappers:
the congruence closure of inserting a `Group`/`Group2`/`Group3` wrapper
on either side. -/
inductive GroupEquiv : Expr → Expr → Prop where
  | refl (a : Expr) : GroupEquiv a a
  | groupL {a b : Expr} : GroupEquiv a b → GroupEquiv (.Group a) b
  | group2L {a b : Expr} : GroupEquiv a b → GroupEquiv (.Group2 a) b
  | group3L {a b : Expr} : GroupEquiv a b → GroupEquiv (.Group3 a) b
  | groupR {a b : Expr} : GroupEquiv a b → GroupEquiv a (.Group b)
  | group2R {a b : Expr} : GroupEquiv a b → GroupEquiv a (.Group2 b)
  | group3R {a b : Expr} : GroupEquiv a b → GroupEquiv a (.Group3 b)
  | notC {a b : Expr} : GroupEquiv a b → GroupEquiv (.Not a) (.Not b)
  | andC {l1 r1 l2 r2 : Expr} : GroupEquiv l1 l2 → GroupEquiv r1 r2 →
      GroupEquiv (.And l1 r1) (.And l2 r2)
  | orC {l1 r1 l2 r2 : Expr} : GroupEquiv l1 l2 → GroupEquiv r1 r2 →
      GroupEquiv (.Or l1 r1) (.Or l2 r2)
  | xorC {l1 r1 l2 r2 : Expr} : GroupEquiv l1 l2 → GroupEquiv r1 r2 →
      GroupEquiv (.Xor l1 r1) (.Xor l2 r2)
  | condC {l1 r1 l2 r2 : Expr} : GroupEquiv l1 l2 → GroupEquiv r1 r2 →
      GroupEquiv (.Conditional l1 r1) (.Conditional l2 r2)
  | bicondC {l1 r1 l2 r2 : Expr} : GroupEquiv l1 l2 → GroupEquiv r1 r2 →
      GroupEquiv (.Biconditional l1 r1) (.Biconditional l2 r2)
  | univC {i : Variable} {x y : Expr} : GroupEquiv x y →
      GroupEquiv (.Universal i x) (.Universal i y)
  | existC {i : Variable} {x y : Expr} : GroupEquiv x y →
      GroupEquiv (.Existential i x) (.Existential i y)
  | unknownC {l1 r1 l2 r2 : Expr} {op : String} : GroupEquiv l1 l2 →
      GroupEquiv r1 r2 →
      GroupEquiv (.UnknownOperator l1 op r1) (.UnknownOperator l2 op r2)
  | funcC {f : Generic} {a1 a2 : List Expr} : GroupEquivs a1 a2 →
      GroupEquiv (.Function f a1) (.Function f a2)
  | predC {p : Literal} {a1 a2 : List Expr} : GroupEquivs a1 a2 →
      GroupEquiv (.Predicate p a1) (.Predicate p a2)

/-- Elementwise `GroupEquiv` on argument lists. -/
inductive GroupEquivs : List Expr → List Expr → Prop where
  | nil : GroupEquivs [] []
  | cons {a b : Expr} {as bs : List Expr} : GroupEquiv a b →
      GroupEquivs as bs → GroupEquivs (a :: as) (b :: bs)
end

mutual
/-- Whether a formula holds no `Expr::Generic` node (the one construct
`validate` rejects with `NotSupported` regardless of scoping). -/
def noGenerics : Expr → Bool
  | .Generic _ => false
  | .Literal _ => true
  | .Variable _ => true
  | .Tautology => true
  | .Contradiction => true
  | .Group x => noGenerics x
  | .Group2 x => noGenerics x
  | .Group3 x => noGenerics x
  | .Function _ args => noGenericsList args
  | .Predicate _ args => noGenericsList args
  | .Not x => noGenerics x
  | .And l r => noGenerics l && noGenerics r
  | .Or l r => noGenerics l && noGenerics r
  | .Xor l r => noGenerics l && noGenerics r
  | .Conditional l r => noGenerics l && noGenerics r
  | .Biconditional l r => noGenerics l && noGenerics r
  | .Universal _ x => noGenerics x
  | .Existential _ x => noGenerics x
  | .UnknownOperator l _ r => noGenerics l && noGenerics r

/-- `noGenerics` over an argument list. -/
def noGenericsList : List Expr → Bool
  | [] => true
  | a :: as => noGenerics a && noGenericsList as
end

mutual
/-- The out-of-scope variable names of a formula, in the traversal order of
`validate`: the scope set is threaded top-down and extended only at
`Universal`/`Existential` binders.  This is the specification-side notion
of quantifier scoping; `c6_quantifier_scoping` relates it to `validate`. -/
def freeVars : Expr → List Variable → List String
  | .Literal _, _ => []
  | .Generic _, _ => []
  | .Variable v, scope => if v ∈ scope then [] else [v.var]
  | .Tautology, _ => []
  | .Contradiction, _ => []
  | .Group x, scope => freeVars x scope
  | .Group2 x, scope => freeVars x scope
  | .Group3 x, scope => freeVars x scope
  | .Function _ args, scope => freeVarsList args scope
  | .Predicate _ args, scope => freeVarsList args scope
  | .Not x, scope => freeVars x scope
  | .And l r, scope => freeVars l scope ++ freeVars r scope
  | .Or l r, scope => freeVars l scope ++ freeVars r scope
  | .Xor l r, scope => freeVars l scope ++ freeVars r scope
  | .Conditional l r, scope => freeVars l scope ++ freeVars r scope
  | .Biconditional l r, scope => freeVars l scope ++ freeVars r scope
  | .Universal i x, scope => freeVars x (varsInsert scope i)
  | .Existential i x, scope => freeVars x (varsInsert scope i)
  | .UnknownOperator l _ r, scope => freeVars l scope ++ freeVars r scope

/-- `freeVars` over an argument list, left to right. -/
def freeVarsList : List Expr → List Variable → List String
  | [], _ => []
  | a :: as, scope => freeVars a scope ++ freeVarsList as scope
end

end Yggdrasil

namespace Yggdrasil
namespace Chumsky

/-- Modelled from the spec: the chumsky revision's `Literal` (file
`src/grammar/src/expr/literal.rs` is not under `src/`) — a propositional
atom name, pattern `[A-Z][a-zA-Z0-9]*`. -/
structure Literal where
  lit : String
deriving DecidableEq, Repr

/-- Modelled from the spec: the chumsky revision's `Variable` (file
`src/grammar/src/expr/variable.rs` is not under `src/`) — a variable
occurrence carrying both its surface name and the unique binding identity
assigned when its quantifier was parsed (the source draws the identity from
`nanoid!(5)`; uniqueness, not reproducibility, is the contract, so the
embedding draws it from a per-parse counter). -/
structure Variable where
  name : String
  id : String
deriving DecidableEq, Repr

/-- `Constant` from `src/grammar/src/expr/constantexpr.rs`. -/
structure Constant where
  lit : String
deriving DecidableEq, Repr

/-- `ConstantExpr` from `src/grammar/src/expr/constantexpr.rs`. -/
inductive ConstantExpr where
  | Constant (c : Constant)
  | Variable (v : Variable)
  | Number (n : Int)
  | Function (func : Constant) (args : List ConstantExpr)
  | Operator (op : String) (left : ConstantExpr) (right : ConstantExpr)
deriving Repr

/-- `Expr` from `src/grammar/src/expr.rs` (the chumsky revision: no
grouping variants, and an `Invalid` parser-error sentinel). -/
inductive Expr where
  | Literal (l : Literal)
  | Variable (v : Variable)
  | Tautology
  | Contradiction
  | Predicate (pred : Literal) (args : List ConstantExpr)
  | Not (e : Expr)
  | And (left : Expr) (right : Expr)
  | Or (left : Expr) (right : Expr)
  | Xor (left : Expr) (right : Expr)
  | Conditional (left : Expr) (right : Expr)
  | Biconditional (left : Expr) (right : Expr)
  | Universal (iter : Variable) (expr : Expr)
  | Existential (iter : Variable) (expr : Expr)
  | ConstantValue (c : ConstantExpr)
  | UnknownOperator (left : Expr) (operator : String) (right : Expr)
  | Invalid
deriving Repr

/-- One diagnostic: a source span (character offsets) and its message
(`YggError::custom` / `Rich::custom` in the source). -/
structure PErr where
  start : Nat
  stop : Nat
  msg : String
deriving DecidableEq, Repr

/-- The parse state: remaining input, current offset, the fresh-identity
counter, and the emitted (secondary) diagnostics.  chumsky rolls emitted
diagnostics back when a speculative branch is rewound; the embedding gets
the same behaviour for free because a failed branch returns `none` and the
caller resumes from its own saved state. -/
structure PState where
  rem : List Char
  pos : Nat
  cnt : Nat
  errs : List PErr
deriving Repr

/-- The chumsky `Extras` context: the active variable-binding map
(`HashMap<String, Variable>`, newest binding shadowing older ones). -/
abbrev ContextType := List (String × Variable)

/-- A chumsky parser: given the binding context and the state, either fail
(backtracking) or produce a value and the successor state. -/
def Parser (α : Type) : Type := ContextType → PState → Option (α × PState)

/-- `.map(f)`. -/
def pmap {α β : Type} (p : Parser α) (f : α → β) : Parser β := fun ctx s =>
  match p ctx s with
  | some (a, s') => some (f a, s')
  | none => none

/-- `.then(q)`: sequence, pairing the outputs. -/
def pthen {α β : Type} (p : Parser α) (q : Parser β) : Parser (α × β) :=
  fun ctx s =>
    match p ctx s with
    | some (a, s1) =>
      match q ctx s1 with
      | some (b, s2) => some ((a, b), s2)
      | none => none
    | none => none

/-- `.then_ignore(q)`. -/
def pthenIgnore {α β : Type} (p : Parser α) (q : Parser β) : Parser α :=
  pmap (pthen p q) Prod.fst

/-- `.ignore_then(q)`. -/
def pignoreThen {α β : Type} (p : Parser α) (q : Parser β) : Parser β :=
  pmap (pthen p q) Prod.snd

/-- `choice((...))`: try the alternatives in order from the same state; a
failed alternative leaves no trace (position and emitted diagnostics are
restored, as chumsky's rewind does). -/
def pchoice {α : Type} : List (Parser α) → Parser α
  | [] => fun _ _ => none
  | p :: ps => fun ctx s =>
    match p ctx s with
    | some r => some r
    | none => pchoice ps ctx s

/-- `.or_not()`. -/
def porNot {α : Type} (p : Parser α) : Parser (Option α) := fun ctx s =>
  match p ctx s with
  | some (a, s') => some (some a, s')
  | none => some (none, s)

/-- `.rewind()`: parse, keep the output, restore the state. -/
def prewind {α : Type} (p : Parser α) : Parser α := fun ctx s =>
  match p ctx s with
  | some (a, _) => some (a, s)
  | none => none

/-- `.to_span()`: the span of the parsed portion. -/
def ptoSpan {α : Type} (p : Parser α) : Parser (Nat × Nat) := fun ctx s =>
  match p ctx s with
  | some (_, s') => some ((s.pos, s'.pos), s')
  | none => none

/-- The `\s` / `char::is_whitespace` class for the inputs at hand. -/
def isWsChar (c : Char) : Bool :=
  c == ' ' || c == '\t' || c == '\n' || c == '\r'

/-- Consume leading whitespace. -/
def skipWsL : List Char → Nat → List Char × Nat
  | c :: rest, pos =>
      if isWsChar c then skipWsL rest (pos + 1) else (c :: rest, pos)
  | [], pos => ([], pos)

/-- Whitespace-skip on the state. -/
def skipWs (s : PState) : PState :=
  { s with
    rem := (skipWsL s.rem s.pos).1,
    pos := (skipWsL s.rem s.pos).2 }

/-- `.padded()`: whitespace is insignificant on both sides. -/
def ppadded {α : Type} (p : Parser α) : Parser α := fun ctx s =>
  match p ctx (skipWs s) with
  | some (a, s') => some (a, skipWs s')
  | none => none

/-- `just(lit)`: an exact token. -/
def pjust (lit : String) : Parser String := fun _ s =>
  if lit.toList.isPrefixOf s.rem then
    some (lit, { s with
      rem := s.rem.drop lit.toList.length,
      pos := s.pos + lit.toList.length })
  else none

/-- `regex(...)` on a first-char class followed by a greedy tail class
(the `[X][a-zA-Z0-9]*` identifier patterns). -/
def pregexClass (first tail : Char → Bool) : Parser String := fun _ s =>
  match s.rem with
  | c :: rest =>
      if first c then
        some (String.mk (c :: rest.takeWhile tail),
          { s with
            rem := rest.dropWhile tail,
            pos := s.pos + 1 + (rest.takeWhile tail).length })
      else none
  | [] => none

/-- `regex(a|b|...)` over literal alternatives, leftmost-first as the
regex crate matches. -/
def pregexChars : List (List Char) → Parser String
  | [] => fun _ _ => none
  | a :: as => fun ctx s =>
      if a.isPrefixOf s.rem then
        some (String.mk a,
          { s with
            rem := s.rem.drop a.length,
            pos := s.pos + a.length })
      else pregexChars as ctx s

def isUpperAZ (c : Char) : Bool := decide ('A' ≤ c) && decide (c ≤ 'Z')
def isLowerAS (c : Char) : Bool := decide ('a' ≤ c) && decide (c ≤ 's')
def isLowerTZ (c : Char) : Bool := decide ('t' ≤ c) && decide (c ≤ 'z')
def isDigitC (c : Char) : Bool := decide ('0' ≤ c) && decide (c ≤ '9')
def isAlnumC (c : Char) : Bool :=
  isUpperAZ c || (decide ('a' ≤ c) && decide (c ≤ 'z')) || isDigitC c
def isWordChar (c : Char) : Bool := isAlnumC c || c == '_'

/-- The character class of `constant_expr_operator`:
`[^\w\s⊤⊥\(\)\[\]\{\}¬→↔∀@∃]`. -/
def isConstOpChar (c : Char) : Bool :=
  !(isWordChar c || isWsChar c ||
    (c == '⊤' || c == '⊥' || c == '(' || c == ')' || c == '[' || c == ']' ||
     c == '\x7b' || c == '\x7d' || c == '¬' || c == '→' || c == '↔' ||
     c == '∀' || c == '@' || c == '∃'))

/-- `regex([class]{1,2})`, greedy, for `constant_expr_operator`. -/
def pconstOpRaw : Parser String := fun _ s =>
  match s.rem with
  | c1 :: c2 :: rest =>
      if isConstOpChar c1 then
        if isConstOpChar c2 then
          some (String.mk [c1, c2], { s with rem := rest, pos := s.pos + 2 })
        else
          some (String.mk [c1], { s with rem := c2 :: rest, pos := s.pos + 1 })
      else none
  | [c1] =>
      if isConstOpChar c1 then
        some (String.mk [c1], { s with rem := [], pos := s.pos + 1 })
      else none
  | [] => none

/-- `grouping` from `src/grammar/src/parser.rs`: the three bracket pairs,
all transparent. -/
def grouping {α : Type} (atom : Parser α) : Parser α :=
  pchoice [
    pignoreThen (ppadded (pjust "(")) (pthenIgnore atom (ppadded (pjust ")"))),
    pignoreThen (ppadded (pjust "[")) (pthenIgnore atom (ppadded (pjust "]"))),
    pignoreThen (ppadded (pjust "\x7b"))
      (pthenIgnore atom (ppadded (pjust "\x7d")))]

/-- `literal` from `src/grammar/src/parser.rs`. -/
def literalP : Parser Literal :=
  pmap (pregexClass isUpperAZ isAlnumC) fun v => ⟨v⟩

/-- `variable` from `src/grammar/src/parser.rs`: a `[t-z][a-zA-Z0-9]*`
token; with `new = true` it mints a fresh binding identity, otherwise it is
resolved against the context, emitting "This variable does not exist" (and
yielding the `**invalid**` identity) when absent. -/
def variableP (new : Bool) : Parser Variable := fun ctx s =>
  match pregexClass isLowerTZ isAlnumC ctx s with
  | none => none
  | some (v, s') =>
      if new then
        some (⟨v, "~" ++ toString s'.cnt⟩, { s' with cnt := s'.cnt + 1 })
      else
        match ctx.lookup v with
        | some var => some (var, s')
        | none =>
            some (⟨v, "**invalid**"⟩,
              { s' with errs :=
                  s'.errs ++ [⟨s.pos, s'.pos, "This variable does not exist"⟩] })

/-- `tautology` from `src/grammar/src/parser.rs`. -/
def tautologyP : Parser Expr :=
  pmap (pregexChars [['⊤'], ['1']]) fun _ => .Tautology

/-- `contradiction` from `src/grammar/src/parser.rs`. -/
def contradictionP : Parser Expr :=
  pmap (pregexChars [['⊥'], ['0']]) fun _ => .Contradiction

/-- `constant` from `src/grammar/src/parser.rs`. -/
def constantP : Parser Constant :=
  pmap (pregexClass isLowerAS isAlnumC) fun v => ⟨v⟩

/-- `.repeated().collect()`: greedy iteration (the fuel only bounds the
iteration count; every successful iteration of the parsers used here
consumes input, so the initial `rem.length + 1` budget is never reached). -/
def prepeatGo {α : Type} (p : Parser α) : Nat → Parser (List α)
  | 0 => fun _ s => some ([], s)
  | n + 1 => fun ctx s =>
    match p ctx s with
    | none => some ([], s)
    | some (a, s') =>
      match prepeatGo p n ctx s' with
      | some (as, s'') => some (a :: as, s'')
      | none => none

def prepeated {α : Type} (p : Parser α) : Parser (List α) := fun ctx s =>
  prepeatGo p (s.rem.length + 1) ctx s

/-- `.separated_by(sep).at_least(1).collect()`. -/
def psepBy1 {α β : Type} (p : Parser α) (sep : Parser β) : Parser (List α) :=
  pmap (pthen p (prepeated (pignoreThen sep p))) fun (a, as) => a :: as

/-- `function` from `src/grammar/src/parser.rs`. -/
def functionP (atom : Parser ConstantExpr) : Parser ConstantExpr :=
  pmap (pthen constantP
      (pignoreThen (pjust "(")
        (pthenIgnore (psepBy1 (ppadded atom) (pjust ",")) (pjust ")"))))
    fun (f, args) => .Function f args

/-- `constant_expr_operator` from `src/grammar/src/parser.rs`. -/
def constant_expr_operator : Parser String := ppadded pconstOpRaw

/-- `[0-9]+` with the source's `try_map` conversion: `digits.parse()` into
an `isize` (64-bit signed on the target) errors when the value overflows
`isize::MAX`, and the `try_map` then fails the parser with the primary
error "Could not parse number" — a failed branch, hence `none`. -/
def pnumber : Parser ConstantExpr := fun ctx s =>
  match pregexClass isDigitC isDigitC ctx s with
  | some (ds, s') =>
      let n := ds.toNat?.getD 0
      if n ≤ 2 ^ 63 - 1 then some (.Number (Int.ofNat n), s') else none
  | none => none

/-- `constant_expr_atom` from `src/grammar/src/parser.rs`. -/
def constant_expr_atom (const_expr : Parser ConstantExpr) : Parser ConstantExpr :=
  pchoice [
    grouping const_expr,
    functionP const_expr,
    pmap constantP ConstantExpr.Constant,
    pmap (variableP false) ConstantExpr.Variable,
    pnumber ]

/-- `constant_expr` from `src/grammar/src/parser.rs` (`recursive`, so the
embedding takes a nesting-depth budget; `parse` supplies one larger than
the input, which grouping/function nesting can never exhaust because each
level consumes at least one character). -/
def constant_exprF : Nat → Parser ConstantExpr
  | 0 => fun _ _ => none
  | n + 1 =>
      let atom := constant_expr_atom (constant_exprF n)
      ppadded (pchoice [
        pmap (pthen (pthen atom constant_expr_operator) atom)
          fun ((a, op), b) => .Operator op a b,
        atom ])

/-- `quantifier` from `src/grammar/src/parser.rs`: parse the quantifier
symbol, bind a fresh variable, extend the context for the body. -/
def quantifier (atom : Parser Expr) (sym : Parser String)
    (mk : Variable → Expr → Expr) : Parser Expr := fun ctx s =>
  match sym ctx s with
  | none => none
  | some (_, s1) =>
    match ppadded (variableP true) ctx s1 with
    | none => none
    | some (v, s2) =>
      match atom ((v.name, v) :: ctx) s2 with
      | none => none
      | some (e, s3) => some (mk v e, s3)

/-- The not-associative diagnostic emitted by `infix_op_set`. -/
def ambiguityMsg : String :=
  "The operators in this expression are not associative; use parentheses to indicate order of operation"

/-- `infix_op_set` from `src/grammar/src/parser.rs`: all operators of one
tier share a precedence with no associativity; after `atom OP atom`, any
further tier-operator occurrence (optionally followed by one more atom) is
captured and reported as the ambiguity diagnostic, the output falling back
to `fallback`. -/
def infix_op_set {E R : Type} (atom : Parser E)
    (things : List (Parser String × (E → E → R))) (fallback : R) :
    Parser R :=
  let any_op : Parser String := pchoice (things.map Prod.fst)
  pchoice (things.map fun (op, into) => fun ctx s =>
    match
      pthen
        (pthen (pthen atom (ppadded (pthenIgnore (prewind (ptoSpan op)) op)))
          atom)
        (prepeated (ppadded (pthenIgnore (ptoSpan any_op) (porNot atom))))
        ctx s with
    | none => none
    | some ((((a, op_span), b), invalid), s') =>
      match invalid.getLast? with
      | none => some (into a b, s')
      | some last =>
          some (fallback,
            { s' with errs := s'.errs ++
                [⟨min op_span.1 last.1, max op_span.2 last.2, ambiguityMsg⟩] }))

/-- `predicate` from `src/grammar/src/parser.rs`. -/
def predicateP (const_expr : Parser ConstantExpr) : Parser Expr :=
  pmap (pthen literalP
      (pignoreThen (pjust "(")
        (pthenIgnore (psepBy1 const_expr (pjust ",")) (pjust ")"))))
    fun (p, args) => .Predicate p args

/-- The quantifier level of `parser` (the inner `recursive(|outer| ...)`),
with its own nesting budget. -/
def quantLevel (atom1 : Parser Expr) : Nat → Parser Expr
  | 0 => fun _ _ => none
  | n + 1 =>
      let outer := quantLevel atom1 n
      ppadded (pchoice [
        quantifier (pchoice [atom1, outer]) (pregexChars [['∀'], ['@']])
          (fun v e => .Universal v e),
        quantifier (pchoice [atom1, outer]) (pregexChars [['∃'], ['/']])
          (fun v e => .Existential v e),
        atom1 ])

/-- The innermost level of `parser`: bracketed groups, predicates,
literals, tautology and contradiction, whitespace-padded. -/
def atomsLevel (expr : Parser Expr) (cexpr : Parser ConstantExpr) : Parser Expr :=
  ppadded (pchoice [
    grouping expr,
    predicateP cexpr,
    pmap literalP Expr.Literal,
    contradictionP,
    tautologyP ])

/-- The constant-equality level of `parser`: the `!=`/`≠` sugar case, the
ordinary constant-operator case, then the fallthrough. -/
def constValueLevel (constAtom : Parser ConstantExpr) (atom : Parser Expr) :
    Parser Expr :=
  pchoice [
    pmap (pthen (pthenIgnore constAtom
        (ppadded (pregexChars [['!', '='], ['≠']]))) constAtom)
      (fun (a, b) => .Not (.ConstantValue (.Operator "=" a b))),
    pmap (pthen (pthen constAtom constant_expr_operator) constAtom)
      (fun ((a, op), b) => .ConstantValue (.Operator op a b)),
    atom ]

/-- The negation level of `parser`. -/
def notLevel (atom : Parser Expr) : Parser Expr :=
  pmap (pthen (porNot (pregexChars [['¬'], ['~'], ['!']])) atom)
    fun (neg, v) => match neg with
      | some _ => .Not v
      | none => v

/-- The And/Or/Xor operator tier (`prec` 8 in the other revision): one
shared precedence, no associativity. -/
def tierAOps : List (Parser String × (Expr → Expr → Expr)) :=
  [(pregexChars [['∧'], ['*'], ['&']], Expr.And),
   (pregexChars [['∨'], ['+'], ['|']], Expr.Or),
   (pregexChars [['⊕'], ['!', '∨'], ['!', '+'], ['!', '|']], Expr.Xor)]

/-- The Conditional/Biconditional operator tier. -/
def tierBOps : List (Parser String × (Expr → Expr → Expr)) :=
  [(pregexChars [['→'], ['-', '>']], Expr.Conditional),
   (pregexChars [['↔'], ['<', '-', '>']], Expr.Biconditional)]

/-- The And/Or/Xor level of `parser`. -/
def tierA (atom : Parser Expr) : Parser Expr :=
  ppadded (pchoice [infix_op_set atom tierAOps Expr.Invalid, atom])

/-- The Conditional/Biconditional level of `parser`. -/
def tierB (atom : Parser Expr) : Parser Expr :=
  ppadded (pchoice [infix_op_set atom tierBOps Expr.Invalid, atom])

/-- `parser` from `src/grammar/src/parser.rs` (`recursive`, so the
embedding takes a grouping-depth budget; each recursion step consumes an
opening bracket, so `parse`'s budget of `input length + 1` never runs
out).  The levels, innermost first, follow the source's chain of `atom`
rebindings. -/
def parserF : Nat → Parser Expr
  | 0 => fun _ _ => none
  | n + 1 =>
      tierB (tierA (notLevel (constValueLevel
        (constant_expr_atom (constant_exprF (n + 1)))
        (quantLevel (atomsLevel (parserF n) (constant_exprF (n + 1))) (n + 1)))))

/-- Modelled from the spec: the grammar crate's
`parse(text) -> Result<Formula, Vec<SyntaxError>>` entry point (the chumsky
revision's `lib.rs` is not under `src/`): run `parser` on the whole input
from an empty binding context and return the (optional) output together
with the accumulated diagnostics, an unconsumed remainder being a failure. -/
def parse (input : String) : Option Expr × List PErr :=
  match parserF (input.length + 1) [] ⟨input.toList, 0, 0, []⟩ with
  | some (e, s) => if s.rem.isEmpty then (some e, s.errs) else (none, s.errs)
  | none => (none, [])

end Chumsky
end Yggdrasil

namespace Yggdrasil
namespace Chumsky

/-- The trailing ` & P` segments of the chain formula `P & P & ... & P`. -/
def chainTail : Nat → List Char
  | 0 => []
  | k + 1 => ' ' :: '&' :: ' ' :: 'P' :: chainTail k

/-- The chain formula with `k` conjunction operators and `k + 1` atoms. -/
def chainStr (k : Nat) : String := String.mk ('P' :: chainTail k)

/-- The levels of `parser` below the two operator tiers. -/
def lowerLevels (expr : Parser Expr) (cexpr : Parser ConstantExpr)
    (fuel : Nat) : Parser Expr :=
  notLevel (constValueLevel (constant_expr_atom cexpr)
    (quantLevel (atomsLevel expr cexpr) fuel))


/-- The remaining input seen by the scan-ahead loop of the And/Or/Xor tier
on a chain: an operator, then an atom, then `k` further segments. -/
def scanRem (k : Nat) : List Char := '&' :: ' ' :: 'P' :: chainTail k

/-- The scan-ahead parser of `infix_op_set` at the And/Or/Xor tier. -/
def scanInnerA (atom : Parser Expr) : Parser (Nat × Nat) :=
  ppadded (pthenIgnore (ptoSpan (pchoice (tierAOps.map Prod.fst))) (porNot atom))


end Chumsky
end Yggdrasil

namespace Yggdrasil

set_option maxHeartbeats 4000000 in
/-- Unfolding of `Expr` equality at a left `Group` wrapper. -/
theorem Expr.eq_groupL (a b : Expr) : Expr.eq (.Group a) b = Expr.eq a b := by
  rw [Expr.eq.eq_def]; cases b <;> rfl

theorem Expr.eq_group2L (a b : Expr) : Expr.eq (.Group2 a) b = Expr.eq a b := by
  rw [Expr.eq.eq_def]; cases b <;> rfl

theorem Expr.eq_group3L (a b : Expr) : Expr.eq (.Group3 a) b = Expr.eq a b := by
  rw [Expr.eq.eq_def]; cases b <;> rfl

/-- Unfolding of `Expr` equality at a right `Group` wrapper. -/
theorem Expr.eq_groupR : (a b : Expr) → Expr.eq a (.Group b) = Expr.eq a b
  | .Group x, b => by
      rw [Expr.eq_groupL, Expr.eq_groupL]; exact Expr.eq_groupR x b
  | .Group2 x, b => by
      rw [Expr.eq_group2L, Expr.eq_group2L]; exact Expr.eq_groupR x b
  | .Group3 x, b => by
      rw [Expr.eq_group3L, Expr.eq_group3L]; exact Expr.eq_groupR x b
  | .Literal _, b => by rw [Expr.eq.eq_def]
  | .Variable _, b => by rw [Expr.eq.eq_def]
  | .Generic _, b => by rw [Expr.eq.eq_def]
  | .Tautology, b => by rw [Expr.eq.eq_def]
  | .Contradiction, b => by rw [Expr.eq.eq_def]
  | .Function _ _, b => by rw [Expr.eq.eq_def]
  | .Predicate _ _, b => by rw [Expr.eq.eq_def]
  | .Not _, b => by rw [Expr.eq.eq_def]
  | .And _ _, b => by rw [Expr.eq.eq_def]
  | .Or _ _, b => by rw [Expr.eq.eq_def]
  | .Xor _ _, b => by rw [Expr.eq.eq_def]
  | .Conditional _ _, b => by rw [Expr.eq.eq_def]
  | .Biconditional _ _, b => by rw [Expr.eq.eq_def]
  | .Universal _ _, b => by rw [Expr.eq.eq_def]
  | .Existential _ _, b => by rw [Expr.eq.eq_def]
  | .UnknownOperator _ _ _, b => by rw [Expr.eq.eq_def]

end Yggdrasil
namespace Yggdrasil

theorem Expr.eq_group2R : (a b : Expr) → Expr.eq a (.Group2 b) = Expr.eq a b
  | .Group x, b => by
      rw [Expr.eq_groupL, Expr.eq_groupL]; exact Expr.eq_group2R x b
  | .Group2 x, b => by
      rw [Expr.eq_group2L, Expr.eq_group2L]; exact Expr.eq_group2R x b
  | .Group3 x, b => by
      rw [Expr.eq_group3L, Expr.eq_group3L]; exact Expr.eq_group2R x b
  | .Literal _, b => by rw [Expr.eq.eq_def]
  | .Variable _, b => by rw [Expr.eq.eq_def]
  | .Generic _, b => by rw [Expr.eq.eq_def]
  | .Tautology, b => by rw [Expr.eq.eq_def]
  | .Contradiction, b => by rw [Expr.eq.eq_def]
  | .Function _ _, b => by rw [Expr.eq.eq_def]
  | .Predicate _ _, b => by rw [Expr.eq.eq_def]
  | .Not _, b => by rw [Expr.eq.eq_def]
  | .And _ _, b => by rw [Expr.eq.eq_def]
  | .Or _ _, b => by rw [Expr.eq.eq_def]
  | .Xor _ _, b => by rw [Expr.eq.eq_def]
  | .Conditional _ _, b => by rw [Expr.eq.eq_def]
  | .Biconditional _ _, b => by rw [Expr.eq.eq_def]
  | .Universal _ _, b => by rw [Expr.eq.eq_def]
  | .Existential _ _, b => by rw [Expr.eq.eq_def]
  | .UnknownOperator _ _ _, b => by rw [Expr.eq.eq_def]

theorem Expr.eq_group3R : (a b : Expr) → Expr.eq a (.Group3 b) = Expr.eq a b
  | .Group x, b => by
      rw [Expr.eq_groupL, Expr.eq_groupL]; exact Expr.eq_group3R x b
  | .Group2 x, b => by
      rw [Expr.eq_group2L, Expr.eq_group2L]; exact Expr.eq_group3R x b
  | .Group3 x, b => by
      rw [Expr.eq_group3L, Expr.eq_group3L]; exact Expr.eq_group3R x b
  | .Literal _, b => by rw [Expr.eq.eq_def]
  | .Variable _, b => by rw [Expr.eq.eq_def]
  | .Generic _, b => by rw [Expr.eq.eq_def]
  | .Tautology, b => by rw [Expr.eq.eq_def]
  | .Contradiction, b => by rw [Expr.eq.eq_def]
  | .Function _ _, b => by rw [Expr.eq.eq_def]
  | .Predicate _ _, b => by rw [Expr.eq.eq_def]
  | .Not _, b => by rw [Expr.eq.eq_def]
  | .And _ _, b => by rw [Expr.eq.eq_def]
  | .Or _ _, b => by rw [Expr.eq.eq_def]
  | .Xor _ _, b => by rw [Expr.eq.eq_def]
  | .Conditional _ _, b => by rw [Expr.eq.eq_def]
  | .Biconditional _ _, b => by rw [Expr.eq.eq_def]
  | .Universal _ _, b => by rw [Expr.eq.eq_def]
  | .Existential _ _, b => by rw [Expr.eq.eq_def]
  | .UnknownOperator _ _ _, b => by rw [Expr.eq.eq_def]

theorem Expr.eq_literal (a b : Yggdrasil.Literal) :
    Expr.eq (.Literal a) (.Literal b) = (a == b) := by rw [Expr.eq.eq_def]

theorem Expr.eq_variable (a b : Yggdrasil.Variable) :
    Expr.eq (.Variable a) (.Variable b) = (a == b) := by rw [Expr.eq.eq_def]

theorem Expr.eq_generic (a b : Yggdrasil.Generic) :
    Expr.eq (.Generic a) (.Generic b) = (a == b) := by rw [Expr.eq.eq_def]

theorem Expr.eq_tautology : Expr.eq .Tautology .Tautology = true := by
  rw [Expr.eq.eq_def]

theorem Expr.eq_contradiction : Expr.eq .Contradiction .Contradiction = true := by
  rw [Expr.eq.eq_def]

theorem Expr.eq_function (f1 f2 : Yggdrasil.Generic) (a1 a2 : List Expr) :
    Expr.eq (.Function f1 a1) (.Function f2 a2) = (f1 == f2 && Expr.eqList a1 a2) := by
  rw [Expr.eq.eq_def]

theorem Expr.eq_predicate (p1 p2 : Yggdrasil.Literal) (a1 a2 : List Expr) :
    Expr.eq (.Predicate p1 a1) (.Predicate p2 a2) = (p1 == p2 && Expr.eqList a1 a2) := by
  rw [Expr.eq.eq_def]

theorem Expr.eq_not (a b : Expr) :
    Expr.eq (.Not a) (.Not b) = Expr.eq a b := by rw [Expr.eq.eq_def]

theorem Expr.eq_and (l1 r1 l2 r2 : Expr) :
    Expr.eq (.And l1 r1) (.And l2 r2) = (Expr.eq l1 l2 && Expr.eq r1 r2) := by
  rw [Expr.eq.eq_def]

theorem Expr.eq_or (l1 r1 l2 r2 : Expr) :
    Expr.eq (.Or l1 r1) (.Or l2 r2) = (Expr.eq l1 l2 && Expr.eq r1 r2) := by
  rw [Expr.eq.eq_def]

theorem Expr.eq_xor (l1 r1 l2 r2 : Expr) :
    Expr.eq (.Xor l1 r1) (.Xor l2 r2) = (Expr.eq l1 l2 && Expr.eq r1 r2) := by
  rw [Expr.eq.eq_def]

theorem Expr.eq_conditional (l1 r1 l2 r2 : Expr) :
    Expr.eq (.Conditional l1 r1) (.Conditional l2 r2) =
      (Expr.eq l1 l2 && Expr.eq r1 r2) := by
  rw [Expr.eq.eq_def]

theorem Expr.eq_biconditional (l1 r1 l2 r2 : Expr) :
    Expr.eq (.Biconditional l1 r1) (.Biconditional l2 r2) =
      (Expr.eq l1 l2 && Expr.eq r1 r2) := by
  rw [Expr.eq.eq_def]

theorem Expr.eq_universal (i1 i2 : Yggdrasil.Variable) (x y : Expr) :
    Expr.eq (.Universal i1 x) (.Universal i2 y) = (i1 == i2 && Expr.eq x y) := by
  rw [Expr.eq.eq_def]

theorem Expr.eq_existential (i1 i2 : Yggdrasil.Variable) (x y : Expr) :
    Expr.eq (.Existential i1 x) (.Existential i2 y) = (i1 == i2 && Expr.eq x y) := by
  rw [Expr.eq.eq_def]

theorem Expr.eq_unknownOperator (l1 r1 l2 r2 : Expr) (op1 op2 : String) :
    Expr.eq (.UnknownOperator l1 op1 r1) (.UnknownOperator l2 op2 r2) =
      (Expr.eq l1 l2 && (op1 == op2 && Expr.eq r1 r2)) := by
  rw [Expr.eq.eq_def]

mutual
theorem Expr.eq_refl : (e : Expr) → Expr.eq e e = true
  | .Group x => by rw [Expr.eq_groupL, Expr.eq_groupR]; exact Expr.eq_refl x
  | .Group2 x => by rw [Expr.eq_group2L, Expr.eq_group2R]; exact Expr.eq_refl x
  | .Group3 x => by rw [Expr.eq_group3L, Expr.eq_group3R]; exact Expr.eq_refl x
  | .Literal l => by rw [Expr.eq_literal]; simp
  | .Variable v => by rw [Expr.eq_variable]; simp
  | .Generic g => by rw [Expr.eq_generic]; simp
  | .Tautology => Expr.eq_tautology
  | .Contradiction => Expr.eq_contradiction
  | .Function f args => by
      rw [Expr.eq_function]; simp [Expr.eqList_refl args]
  | .Predicate p args => by
      rw [Expr.eq_predicate]; simp [Expr.eqList_refl args]
  | .Not x => by rw [Expr.eq_not]; exact Expr.eq_refl x
  | .And l r => by rw [Expr.eq_and]; simp [Expr.eq_refl l, Expr.eq_refl r]
  | .Or l r => by rw [Expr.eq_or]; simp [Expr.eq_refl l, Expr.eq_refl r]
  | .Xor l r => by rw [Expr.eq_xor]; simp [Expr.eq_refl l, Expr.eq_refl r]
  | .Conditional l r => by
      rw [Expr.eq_conditional]; simp [Expr.eq_refl l, Expr.eq_refl r]
  | .Biconditional l r => by
      rw [Expr.eq_biconditional]; simp [Expr.eq_refl l, Expr.eq_refl r]
  | .Universal i x => by rw [Expr.eq_universal]; simp [Expr.eq_refl x]
  | .Existential i x => by rw [Expr.eq_existential]; simp [Expr.eq_refl x]
  | .UnknownOperator l op r => by
      rw [Expr.eq_unknownOperator]; simp [Expr.eq_refl l, Expr.eq_refl r]

theorem Expr.eqList_refl : (l : List Expr) → Expr.eqList l l = true
  | [] => by rw [Expr.eqList.eq_def]
  | a :: as => by
      rw [Expr.eqList.eq_def]
      simp [Expr.eq_refl a, Expr.eqList_refl as]
end

end Yggdrasil
namespace Yggdrasil

theorem Expr.hashTrace_groupL (x : Expr) :
    Expr.hashTrace (.Group x) = Expr.hashTrace x := by
  rw [Expr.hashTrace.eq_def, Expr.hashTrace.eq_def]; simp only [Expr.simplify]

theorem Expr.hashTrace_group2L (x : Expr) :
    Expr.hashTrace (.Group2 x) = Expr.hashTrace x := by
  rw [Expr.hashTrace.eq_def, Expr.hashTrace.eq_def]; simp only [Expr.simplify]

theorem Expr.hashTrace_group3L (x : Expr) :
    Expr.hashTrace (.Group3 x) = Expr.hashTrace x := by
  rw [Expr.hashTrace.eq_def, Expr.hashTrace.eq_def]; simp only [Expr.simplify]

mutual
/-- `Expr::hash` never reaches the `unreachable!()` arm and emits exactly
the structural stream `Expr.traceSpec`. -/
theorem Expr.hashTrace_eq_traceSpec :
    (e : Expr) → Expr.hashTrace e = some (Expr.traceSpec e)
  | .Group x => by
      rw [Expr.hashTrace_groupL, Expr.hashTrace_eq_traceSpec x]
      simp [Expr.traceSpec]
  | .Group2 x => by
      rw [Expr.hashTrace_group2L, Expr.hashTrace_eq_traceSpec x]
      simp [Expr.traceSpec]
  | .Group3 x => by
      rw [Expr.hashTrace_group3L, Expr.hashTrace_eq_traceSpec x]
      simp [Expr.traceSpec]
  | .Literal l => by
      rw [Expr.hashTrace.eq_def, Expr.hashThing.eq_def]
      simp [Expr.simplify, Expr.hashFields, Expr.disc, Expr.traceSpec]
  | .Variable v => by
      rw [Expr.hashTrace.eq_def, Expr.hashThing.eq_def]
      simp [Expr.simplify, Expr.hashFields, Expr.disc, Expr.traceSpec]
  | .Generic g => by
      rw [Expr.hashTrace.eq_def, Expr.hashThing.eq_def]
      simp [Expr.simplify, Expr.hashFields, Expr.disc, Expr.traceSpec]
  | .Tautology => by
      rw [Expr.hashTrace.eq_def, Expr.hashThing.eq_def]
      simp [Expr.simplify, Expr.hashFields, Expr.disc, Expr.traceSpec]
  | .Contradiction => by
      rw [Expr.hashTrace.eq_def, Expr.hashThing.eq_def]
      simp [Expr.simplify, Expr.hashFields, Expr.disc, Expr.traceSpec]
  | .Function f args => by
      rw [Expr.hashTrace.eq_def, Expr.hashThing.eq_def]
      simp [Expr.simplify, Expr.hashFields, Expr.disc, Expr.traceSpec,
        Expr.hashTraceList_eq_traceSpecList args]
  | .Predicate p args => by
      rw [Expr.hashTrace.eq_def, Expr.hashThing.eq_def]
      simp [Expr.simplify, Expr.hashFields, Expr.disc, Expr.traceSpec,
        Expr.hashTraceList_eq_traceSpecList args]
  | .Not x => by
      rw [Expr.hashTrace.eq_def, Expr.hashThing.eq_def]
      simp [Expr.simplify, Expr.hashFields, Expr.disc, Expr.traceSpec,
        Expr.hashTrace_eq_traceSpec x]
  | .And l r => by
      rw [Expr.hashTrace.eq_def, Expr.hashThing.eq_def]
      simp [Expr.simplify, Expr.hashFields, Expr.disc, Expr.traceSpec,
        Expr.hashTrace_eq_traceSpec l, Expr.hashTrace_eq_traceSpec r]
  | .Or l r => by
      rw [Expr.hashTrace.eq_def, Expr.hashThing.eq_def]
      simp [Expr.simplify, Expr.hashFields, Expr.disc, Expr.traceSpec,
        Expr.hashTrace_eq_traceSpec l, Expr.hashTrace_eq_traceSpec r]
  | .Xor l r => by
      rw [Expr.hashTrace.eq_def, Expr.hashThing.eq_def]
      simp [Expr.simplify, Expr.hashFields, Expr.disc, Expr.traceSpec,
        Expr.hashTrace_eq_traceSpec l, Expr.hashTrace_eq_traceSpec r]
  | .Conditional l r => by
      rw [Expr.hashTrace.eq_def, Expr.hashThing.eq_def]
      simp [Expr.simplify, Expr.hashFields, Expr.disc, Expr.traceSpec,
        Expr.hashTrace_eq_traceSpec l, Expr.hashTrace_eq_traceSpec r]
  | .Biconditional l r => by
      rw [Expr.hashTrace.eq_def, Expr.hashThing.eq_def]
      simp [Expr.simplify, Expr.hashFields, Expr.disc, Expr.traceSpec,
        Expr.hashTrace_eq_traceSpec l, Expr.hashTrace_eq_traceSpec r]
  | .Universal i x => by
      rw [Expr.hashTrace.eq_def, Expr.hashThing.eq_def]
      simp [Expr.simplify, Expr.hashFields, Expr.disc, Expr.traceSpec,
        Expr.hashTrace_eq_traceSpec x]
  | .Existential i x => by
      rw [Expr.hashTrace.eq_def, Expr.hashThing.eq_def]
      simp [Expr.simplify, Expr.hashFields, Expr.disc, Expr.traceSpec,
        Expr.hashTrace_eq_traceSpec x]
  | .UnknownOperator l op r => by
      rw [Expr.hashTrace.eq_def, Expr.hashThing.eq_def]
      simp [Expr.simplify, Expr.hashFields, Expr.disc, Expr.traceSpec,
        Expr.hashTrace_eq_traceSpec l, Expr.hashTrace_eq_traceSpec r]

theorem Expr.hashTraceList_eq_traceSpecList :
    (l : List Expr) → Expr.hashTraceList l = some (Expr.traceSpecList l)
  | [] => by rw [Expr.hashTraceList.eq_def]; simp [Expr.traceSpecList]
  | a :: as => by
      rw [Expr.hashTraceList.eq_def]
      simp [Expr.hashTrace_eq_traceSpec a,
        Expr.hashTraceList_eq_traceSpecList as, Expr.traceSpecList]
end

theorem Expr.simplify_not_group : (e : Expr) → e.simplify.isGroupNode = false
  | .Group x => Expr.simplify_not_group x
  | .Group2 x => Expr.simplify_not_group x
  | .Group3 x => Expr.simplify_not_group x
  | .Literal _ => rfl
  | .Variable _ => rfl
  | .Generic _ => rfl
  | .Tautology => rfl
  | .Contradiction => rfl
  | .Function _ _ => rfl
  | .Predicate _ _ => rfl
  | .Not _ => rfl
  | .And _ _ => rfl
  | .Or _ _ => rfl
  | .Xor _ _ => rfl
  | .Conditional _ _ => rfl
  | .Biconditional _ _ => rfl
  | .Universal _ _ => rfl
  | .Existential _ _ => rfl
  | .UnknownOperator _ _ _ => rfl

end Yggdrasil
namespace Yggdrasil

mutual
theorem groupEquiv_eq : {a b : Expr} → GroupEquiv a b → Expr.eq a b = true
  | _, _, .refl a => Expr.eq_refl a
  | _, _, .groupL h => by rw [Expr.eq_groupL]; exact groupEquiv_eq h
  | _, _, .group2L h => by rw [Expr.eq_group2L]; exact groupEquiv_eq h
  | _, _, .group3L h => by rw [Expr.eq_group3L]; exact groupEquiv_eq h
  | _, _, .groupR h => by rw [Expr.eq_groupR]; exact groupEquiv_eq h
  | _, _, .group2R h => by rw [Expr.eq_group2R]; exact groupEquiv_eq h
  | _, _, .group3R h => by rw [Expr.eq_group3R]; exact groupEquiv_eq h
  | _, _, .notC h => by rw [Expr.eq_not]; exact groupEquiv_eq h
  | _, _, .andC h1 h2 => by
      rw [Expr.eq_and]; simp [groupEquiv_eq h1, groupEquiv_eq h2]
  | _, _, .orC h1 h2 => by
      rw [Expr.eq_or]; simp [groupEquiv_eq h1, groupEquiv_eq h2]
  | _, _, .xorC h1 h2 => by
      rw [Expr.eq_xor]; simp [groupEquiv_eq h1, groupEquiv_eq h2]
  | _, _, .condC h1 h2 => by
      rw [Expr.eq_conditional]; simp [groupEquiv_eq h1, groupEquiv_eq h2]
  | _, _, .bicondC h1 h2 => by
      rw [Expr.eq_biconditional]; simp [groupEquiv_eq h1, groupEquiv_eq h2]
  | _, _, .univC h => by rw [Expr.eq_universal]; simp [groupEquiv_eq h]
  | _, _, .existC h => by rw [Expr.eq_existential]; simp [groupEquiv_eq h]
  | _, _, .unknownC h1 h2 => by
      rw [Expr.eq_unknownOperator]; simp [groupEquiv_eq h1, groupEquiv_eq h2]
  | _, _, .funcC h => by rw [Expr.eq_function]; simp [groupEquivs_eqList h]
  | _, _, .predC h => by rw [Expr.eq_predicate]; simp [groupEquivs_eqList h]

theorem groupEquivs_eqList :
    {as bs : List Expr} → GroupEquivs as bs → Expr.eqList as bs = true
  | _, _, .nil => by rw [Expr.eqList.eq_def]
  | _, _, .cons h hs => by
      rw [Expr.eqList.eq_def]
      simp [groupEquiv_eq h, groupEquivs_eqList hs]
end

mutual
theorem groupEquiv_traceSpec :
    {a b : Expr} → GroupEquiv a b → Expr.traceSpec a = Expr.traceSpec b
  | _, _, .refl a => rfl
  | _, _, .groupL h => by
      simp only [Expr.traceSpec]; exact groupEquiv_traceSpec h
  | _, _, .group2L h => by
      simp only [Expr.traceSpec]; exact groupEquiv_traceSpec h
  | _, _, .group3L h => by
      simp only [Expr.traceSpec]; exact groupEquiv_traceSpec h
  | _, _, .groupR h => by
      simp only [Expr.traceSpec]; exact groupEquiv_traceSpec h
  | _, _, .group2R h => by
      simp only [Expr.traceSpec]; exact groupEquiv_traceSpec h
  | _, _, .group3R h => by
      simp only [Expr.traceSpec]; exact groupEquiv_traceSpec h
  | _, _, .notC h => by
      simp only [Expr.traceSpec]; rw [groupEquiv_traceSpec h]
  | _, _, .andC h1 h2 => by
      simp only [Expr.traceSpec]
      rw [groupEquiv_traceSpec h1, groupEquiv_traceSpec h2]
  | _, _, .orC h1 h2 => by
      simp only [Expr.traceSpec]
      rw [groupEquiv_traceSpec h1, groupEquiv_traceSpec h2]
  | _, _, .xorC h1 h2 => by
      simp only [Expr.traceSpec]
      rw [groupEquiv_traceSpec h1, groupEquiv_traceSpec h2]
  | _, _, .condC h1 h2 => by
      simp only [Expr.traceSpec]
      rw [groupEquiv_traceSpec h1, groupEquiv_traceSpec h2]
  | _, _, .bicondC h1 h2 => by
      simp only [Expr.traceSpec]
      rw [groupEquiv_traceSpec h1, groupEquiv_traceSpec h2]
  | _, _, .univC h => by
      simp only [Expr.traceSpec]; rw [groupEquiv_traceSpec h]
  | _, _, .existC h => by
      simp only [Expr.traceSpec]; rw [groupEquiv_traceSpec h]
  | _, _, .unknownC h1 h2 => by
      simp only [Expr.traceSpec]
      rw [groupEquiv_traceSpec h1, groupEquiv_traceSpec h2]
  | _, _, .funcC h => by
      simp only [Expr.traceSpec]
      rw [groupEquivs_traceSpecList h, groupEquivs_length h]
  | _, _, .predC h => by
      simp only [Expr.traceSpec]
      rw [groupEquivs_traceSpecList h, groupEquivs_length h]

theorem groupEquivs_traceSpecList :
    {as bs : List Expr} → GroupEquivs as bs →
      Expr.traceSpecList as = Expr.traceSpecList bs
  | _, _, .nil => rfl
  | _, _, .cons h hs => by
      simp only [Expr.traceSpecList]
      rw [groupEquiv_traceSpec h, groupEquivs_traceSpecList hs]

theorem groupEquivs_length :
    {as bs : List Expr} → GroupEquivs as bs → as.length = bs.length
  | _, _, .nil => rfl
  | _, _, .cons h hs => by simp [groupEquivs_length hs]
end

/-- C9: for every `Expr`, `simplify` never returns a `Group`, `Group2` or
`Group3` node, so the `unreachable!()` arm of the `Hash` implementation for
the three grouping variants is never executed and hashing any `Expr` never
panics (the embedded hash stream is always `some`). -/
theorem c9_simplify_never_group_hash_never_panics :
    (∀ e : Expr, e.simplify.isGroupNode = false) ∧
    (∀ e : Expr, (Expr.hashTrace e).isSome = true) :=
  ⟨Expr.simplify_not_group, fun e => by rw [Expr.hashTrace_eq_traceSpec e]; rfl⟩

/-- C1: grouping transparency.  For every formula `f` and each of the three
group wrappers, `f` equals the wrapped formula under `Expr`'s `PartialEq`
and the wrapped formula hashes identically to `f`; more generally any two
formulas differing only in (possibly nested) grouping wrappers
(`GroupEquiv`) are equal and hash identically. -/
theorem c1_grouping_transparency :
    (∀ f : Expr,
      Expr.eq f (.Group f) = true ∧ Expr.eq f (.Group2 f) = true ∧
      Expr.eq f (.Group3 f) = true ∧
      Expr.hashTrace (.Group f) = Expr.hashTrace f ∧
      Expr.hashTrace (.Group2 f) = Expr.hashTrace f ∧
      Expr.hashTrace (.Group3 f) = Expr.hashTrace f) ∧
    (∀ a b : Expr, GroupEquiv a b →
      Expr.eq a b = true ∧ Expr.hashTrace a = Expr.hashTrace b) := by
  constructor
  · intro f
    refine ⟨?_, ?_, ?_, Expr.hashTrace_groupL f, Expr.hashTrace_group2L f,
      Expr.hashTrace_group3L f⟩
    · rw [Expr.eq_groupR]; exact Expr.eq_refl f
    · rw [Expr.eq_group2R]; exact Expr.eq_refl f
    · rw [Expr.eq_group3R]; exact Expr.eq_refl f
  · intro a b h
    refine ⟨groupEquiv_eq h, ?_⟩
    rw [Expr.hashTrace_eq_traceSpec, Expr.hashTrace_eq_traceSpec,
      groupEquiv_traceSpec h]

/-- Witness for C1 at a concrete pair differing only in grouping. -/
theorem c1_grouping_transparency_witness :
    Expr.eq (.And (.Literal ⟨"P"⟩) (.Literal ⟨"Q"⟩))
      (.Group (.And (.Group2 (.Literal ⟨"P"⟩)) (.Literal ⟨"Q"⟩))) = true ∧
    Expr.hashTrace (.And (.Literal ⟨"P"⟩) (.Literal ⟨"Q"⟩)) =
      Expr.hashTrace (.Group (.And (.Group2 (.Literal ⟨"P"⟩)) (.Literal ⟨"Q"⟩))) :=
  c1_grouping_transparency.2 _ _
    (.groupR (.andC (.group2R (.refl _)) (.refl _)))

end Yggdrasil
namespace Yggdrasil

/-- C2: `decompose(Or, f)` on a formula whose simplified form is `p ∨ q`
returns `Ok({p}, {q})` with each operand simplified; on any formula whose
simplified top-level shape is not `Or` it fails with
`InvalidStatementType(Or, actual_shape)`. -/
theorem c2_decompose_or :
    (∀ f p q : Expr, f.simplify = .Or p q →
      BranchRule.decompose .Or f =
        .ok (ExprSet.ofList [p.simplify], ExprSet.ofList [q.simplify])) ∧
    (∀ f : Expr, (∀ p q, f.simplify ≠ .Or p q) →
      BranchRule.decompose .Or f =
        .error (.ValidationError (.InvalidStatementType .Or
          (ExprDiscriminants.ofExpr f.simplify)))) := by
  constructor
  · intro f p q h
    simp only [BranchRule.decompose, h]
  · intro f h
    cases hs : f.simplify with
    | Or p q => exact absurd hs (h p q)
    | _ => simp only [BranchRule.decompose, hs]

/-- Witness for C2: `decompose(Or, A ∨ B) = Ok({A}, {B})` and
`decompose(Or, A ∧ B)` fails with `InvalidStatementType(Or, And)`. -/
theorem c2_decompose_or_witness :
    BranchRule.decompose .Or (.Or (.Literal ⟨"A"⟩) (.Literal ⟨"B"⟩)) =
      .ok ([.Literal ⟨"A"⟩], [.Literal ⟨"B"⟩]) ∧
    BranchRule.decompose .Or (.And (.Literal ⟨"A"⟩) (.Literal ⟨"B"⟩)) =
      .error (.ValidationError (.InvalidStatementType .Or .And)) := by
  constructor
  · rw [c2_decompose_or.1 (.Or (.Literal ⟨"A"⟩) (.Literal ⟨"B"⟩))
      (.Literal ⟨"A"⟩) (.Literal ⟨"B"⟩) rfl]
    simp [ExprSet.ofList, ExprSet.insert, ExprSet.contains, Expr.simplify]
  · rw [c2_decompose_or.2 (.And (.Literal ⟨"A"⟩) (.Literal ⟨"B"⟩))
      (by intro p q h; exact Expr.noConfusion h)]
    rfl

/-- C3: `decompose(Nand, f)` on a formula whose simplified form is
`¬ x` with `x` simplifying to `p ∧ q` returns `Ok({p}, {q})` — the
*un-negated* operands; if the simplified formula is a `Not` whose simplified
inner formula is not an `And` it fails with
`InvalidStatementType(And, inner_shape)`, and if the simplified formula is
not a `Not` at all it fails with `InvalidStatementType(Not, shape)`. -/
theorem c3_decompose_nand :
    (∀ f x p q : Expr, f.simplify = .Not x → x.simplify = .And p q →
      BranchRule.decompose .Nand f =
        .ok (ExprSet.ofList [p.simplify], ExprSet.ofList [q.simplify])) ∧
    (∀ f x : Expr, f.simplify = .Not x → (∀ p q, x.simplify ≠ .And p q) →
      BranchRule.decompose .Nand f =
        .error (.ValidationError (.InvalidStatementType .And
          (ExprDiscriminants.ofExpr x.simplify)))) ∧
    (∀ f : Expr, (∀ x, f.simplify ≠ .Not x) →
      BranchRule.decompose .Nand f =
        .error (.ValidationError (.InvalidStatementType .Not
          (ExprDiscriminants.ofExpr f.simplify)))) := by
  refine ⟨?_, ?_, ?_⟩
  · intro f x p q h hx
    simp only [BranchRule.decompose, h, hx]
  · intro f x h hx
    cases hs : x.simplify with
    | And p q => exact absurd hs (hx p q)
    | _ => simp only [BranchRule.decompose, h, hs]
  · intro f h
    cases hs : f.simplify with
    | Not x => exact absurd hs (h x)
    | _ => simp only [BranchRule.decompose, hs]

/-- Witness for C3: `decompose(Nand, ¬(A ∧ B)) = Ok({A}, {B})` (not
`{¬A}, {¬B}`), `decompose(Nand, ¬(A ∨ B))` fails with
`InvalidStatementType(And, Or)`, and `decompose(Nand, A ∧ B)` fails with
`InvalidStatementType(Not, And)`. -/
theorem c3_decompose_nand_witness :
    BranchRule.decompose .Nand (.Not (.And (.Literal ⟨"A"⟩) (.Literal ⟨"B"⟩))) =
      .ok ([.Literal ⟨"A"⟩], [.Literal ⟨"B"⟩]) ∧
    BranchRule.decompose .Nand (.Not (.Or (.Literal ⟨"A"⟩) (.Literal ⟨"B"⟩))) =
      .error (.ValidationError (.InvalidStatementType .And .Or)) ∧
    BranchRule.decompose .Nand (.And (.Literal ⟨"A"⟩) (.Literal ⟨"B"⟩)) =
      .error (.ValidationError (.InvalidStatementType .Not .And)) := by
  refine ⟨?_, ?_, ?_⟩
  · rw [c3_decompose_nand.1 (.Not (.And (.Literal ⟨"A"⟩) (.Literal ⟨"B"⟩)))
      (.And (.Literal ⟨"A"⟩) (.Literal ⟨"B"⟩))
      (.Literal ⟨"A"⟩) (.Literal ⟨"B"⟩) rfl rfl]
    simp [ExprSet.ofList, ExprSet.insert, ExprSet.contains, Expr.simplify]
  · rw [c3_decompose_nand.2.1 (.Not (.Or (.Literal ⟨"A"⟩) (.Literal ⟨"B"⟩)))
      (.Or (.Literal ⟨"A"⟩) (.Literal ⟨"B"⟩)) rfl
      (by intro p q h; exact Expr.noConfusion h)]
    rfl
  · rw [c3_decompose_nand.2.2 (.And (.Literal ⟨"A"⟩) (.Literal ⟨"B"⟩))
      (by intro x h; exact Expr.noConfusion h)]
    rfl

/-- C4: `decompose(Biconditional, f)` on a formula whose simplified form is
`p ↔ q` returns branch 1 `{p, q}` and branch 2 `{¬p, ¬q}`, the negations
freshly built `Not` wrappers around the simplified operands; membership in
the produced sets uses the grouping-transparent equality, so `p` and `(p)`
count as one element. -/
theorem c4_decompose_biconditional :
    ∀ f p q : Expr, f.simplify = .Biconditional p q →
      BranchRule.decompose .Biconditional f =
        .ok (ExprSet.ofList [p.simplify, q.simplify],
          ExprSet.ofList [Expr.Not p.simplify, Expr.Not q.simplify]) ∧
      (ExprSet.ofList [p.simplify, q.simplify]).contains
        (.Group p.simplify) = true := by
  intro f p q h
  constructor
  · simp only [BranchRule.decompose, h]
  · have hins : ExprSet.ofList [p.simplify, q.simplify] =
        ExprSet.insert [p.simplify] q.simplify := by
      simp [ExprSet.ofList, ExprSet.insert, ExprSet.contains]
    rw [hins, ExprSet.insert]
    split <;> simp [ExprSet.contains, Expr.eq_groupR, Expr.eq_refl]

/-- Witness for C4: `decompose(Biconditional, A ↔ B) = Ok({A, B}, {¬A, ¬B})`,
and `(A)` is a member of the produced branch-1 set `{A, B}`. -/
theorem c4_decompose_biconditional_witness :
    BranchRule.decompose .Biconditional
        (.Biconditional (.Literal ⟨"A"⟩) (.Literal ⟨"B"⟩)) =
      .ok ([.Literal ⟨"A"⟩, .Literal ⟨"B"⟩],
        [.Not (.Literal ⟨"A"⟩), .Not (.Literal ⟨"B"⟩)]) ∧
    ExprSet.contains [.Literal ⟨"A"⟩, .Literal ⟨"B"⟩]
      (.Group (.Literal ⟨"A"⟩)) = true := by
  have h := c4_decompose_biconditional
    (.Biconditional (.Literal ⟨"A"⟩) (.Literal ⟨"B"⟩))
    (.Literal ⟨"A"⟩) (.Literal ⟨"B"⟩) rfl
  constructor
  · rw [h.1]
    simp [ExprSet.ofList, ExprSet.insert, ExprSet.contains, Expr.simplify,
      Expr.eq_literal, Expr.eq_not]
  · have h2 := h.2
    simp only [Expr.simplify] at h2
    simpa [ExprSet.ofList, ExprSet.insert, ExprSet.contains,
      Expr.eq_literal] using h2

end Yggdrasil
namespace Yggdrasil

theorem expr_list_starts_with_go_spec (set : ExprSet) :
    ∀ (l : List Expr) (found : Nat),
      expr_list_starts_with_go set l found = true ↔
        (set.length - found ≤ l.length ∧
          ∀ x ∈ l.take (set.length - found), set.contains x = true)
  | [], found => by
      simp only [expr_list_starts_with_go, List.take_nil, List.not_mem_nil,
        false_implies, implies_true, and_true, List.length_nil,
        decide_eq_true_eq]
      omega
  | v :: rest, found => by
      simp only [expr_list_starts_with_go]
      by_cases hf : set.length ≤ found
      · have h0 : set.length - found = 0 := by omega
        simp [hf, h0]
      · have hn : set.length - found = (set.length - (found + 1)) + 1 := by
          omega
        cases hc : set.contains v with
        | false =>
            simp only [hf, if_false, hn, List.take_succ_cons]
            constructor
            · intro h; exact absurd h (by simp)
            · rintro ⟨h1, h2⟩
              have := h2 v (List.mem_cons_self v _)
              rw [hc] at this
              exact absurd this (by simp)
        | true =>
            simp only [hf, if_false, hc, if_true, hn, List.take_succ_cons]
            rw [expr_list_starts_with_go_spec set rest (found + 1)]
            constructor
            · rintro ⟨h1, h2⟩
              refine ⟨by simp; omega, ?_⟩
              intro x hx
              rcases List.mem_cons.mp hx with h | h
              · rw [h]; exact hc
              · exact h2 x h
            · rintro ⟨h1, h2⟩
              refine ⟨by simp at h1; omega, ?_⟩
              intro x hx
              exact h2 x (List.mem_cons_of_mem _ hx)

/-- C7: `expr_list_starts_with(sequence, set)` is true iff the sequence is
at least `|set|` long and its first `|set|` elements are each members of
`set` (membership by the grouping-transparent structural equality); it is
false as soon as an out-of-set element appears among those positions and
false when the sequence is exhausted first.  Concretely,
`starts_with(["A","B","C"], {"A","B"})` is true and
`starts_with(["C","A","B"], {"A","B"})` is false. -/
theorem c7_starts_with_contract :
    (∀ (l : List Expr) (set : ExprSet),
      expr_list_starts_with l set = true ↔
        set.length ≤ l.length ∧
        ∀ x ∈ l.take set.length, set.contains x = true) ∧
    expr_list_starts_with [.Literal ⟨"A"⟩, .Literal ⟨"B"⟩, .Literal ⟨"C"⟩]
      [.Literal ⟨"A"⟩, .Literal ⟨"B"⟩] = true ∧
    expr_list_starts_with [.Literal ⟨"C"⟩, .Literal ⟨"A"⟩, .Literal ⟨"B"⟩]
      [.Literal ⟨"A"⟩, .Literal ⟨"B"⟩] = false := by
  refine ⟨?_, ?_, ?_⟩
  · intro l set
    have h := expr_list_starts_with_go_spec set l 0
    simpa [expr_list_starts_with] using h
  · simp [expr_list_starts_with, expr_list_starts_with_go, ExprSet.contains,
      Expr.eq_literal]
  · simp [expr_list_starts_with, expr_list_starts_with_go, ExprSet.contains,
      Expr.eq_literal]

/-- C10: `expr_list_starts_with` does not deduplicate within the scan
window: for a two-element required set containing `a`, the sequence
`[a, a]` passes even though the other required element never appears. -/
theorem c10_starts_with_no_dedup :
    ∀ (a : Expr) (set : ExprSet), set.length = 2 → set.contains a = true →
      expr_list_starts_with [a, a] set = true := by
  intro a set h2 hc
  simp [expr_list_starts_with, expr_list_starts_with_go, h2, hc]

/-- Witness for C10 with `a = "A"` and `set = {"A", "B"}`. -/
theorem c10_starts_with_no_dedup_witness :
    expr_list_starts_with [.Literal ⟨"A"⟩, .Literal ⟨"A"⟩]
      [.Literal ⟨"A"⟩, .Literal ⟨"B"⟩] = true :=
  c10_starts_with_no_dedup (.Literal ⟨"A"⟩) [.Literal ⟨"A"⟩, .Literal ⟨"B"⟩]
    rfl (by simp [ExprSet.contains, Expr.eq_literal])

end Yggdrasil
namespace Yggdrasil

theorem keyList_contains_iff (l : List (Option (List HashToken)))
    (k : Option (List HashToken)) : l.contains k = true ↔ k ∈ l := by
  induction l with
  | nil => simp
  | cons a as ih => simp [List.contains_cons, ih, beq_iff_eq]

theorem expr_maybe_go_spec (set : ExprSet) :
    ∀ (l : List (Option Expr)) (found : Nat)
      (matched : List (Option (List HashToken))),
      expr_maybe_list_starts_with_go set l found matched = true ↔
        (set.length - found ≤ l.length ∧
          (∀ x ∈ l.take (set.length - found),
            (∃ e, x = some e ∧ set.contains e = true) ∧
            ∀ k ∈ matched, optionHashKey x ≠ k) ∧
          (l.take (set.length - found)).Pairwise
            (fun x y => optionHashKey x ≠ optionHashKey y))
  | [], found, matched => by
      simp only [expr_maybe_list_starts_with_go, List.take_nil,
        List.not_mem_nil, false_implies, implies_true, and_true,
        List.length_nil, List.Pairwise.nil, decide_eq_true_eq]
      omega
  | v :: rest, found, matched => by
      simp only [expr_maybe_list_starts_with_go]
      by_cases hf : set.length ≤ found
      · have h0 : set.length - found = 0 := by omega
        simp [hf, h0]
      · have hn : set.length - found = (set.length - (found + 1)) + 1 := by
          omega
        rw [if_neg hf, hn, List.take_succ_cons]
        cases v with
        | none =>
            constructor
            · intro h; exact absurd h (by simp)
            · rintro ⟨h1, h2, h3⟩
              obtain ⟨⟨e, he, _⟩, _⟩ := h2 none (List.mem_cons_self _ _)
              exact Option.noConfusion he
        | some v' =>
            show (if (set.contains v' &&
                !matched.contains (optionHashKey (some v'))) = true then
                  expr_maybe_list_starts_with_go set rest (found + 1)
                    (optionHashKey (some v') :: matched)
                else false) = true ↔ _
            cases hc : set.contains v' with
            | false =>
                simp only [Bool.false_and, Bool.false_eq_true, if_false,
                  false_iff]
                rintro ⟨h1, h2, h3⟩
                obtain ⟨⟨e, he, hce⟩, _⟩ := h2 (some v')
                  (List.mem_cons_self _ _)
                rw [(Option.some.injEq _ _).mp he] at hc
                rw [hc] at hce
                exact Bool.noConfusion hce
            | true =>
                cases hm : (matched.contains (optionHashKey (some v'))) with
                | true =>
                    simp only [Bool.not_true, Bool.and_false,
                      Bool.false_eq_true, if_false, false_iff]
                    rintro ⟨h1, h2, h3⟩
                    obtain ⟨_, hfresh⟩ := h2 (some v')
                      (List.mem_cons_self _ _)
                    exact hfresh _ ((keyList_contains_iff _ _).mp hm) rfl
                | false =>
                    simp only [Bool.not_false, Bool.and_true]
                    rw [if_pos trivial]
                    rw [expr_maybe_go_spec set rest (found + 1)
                      (optionHashKey (some v') :: matched)]
                    have hmem : optionHashKey (some v') ∉ matched := by
                      intro hk
                      rw [(keyList_contains_iff _ _).mpr hk] at hm
                      exact Bool.noConfusion hm
                    constructor
                    · rintro ⟨h1, h2, h3⟩
                      refine ⟨by simp; omega, ?_, ?_⟩
                      · intro x hx
                        rcases List.mem_cons.mp hx with h | h
                        · refine ⟨⟨v', h, hc⟩, ?_⟩
                          intro k hk
                          rw [h]
                          intro hkey
                          rw [hkey] at hmem
                          exact hmem hk
                        · obtain ⟨he, hfr⟩ := h2 x h
                          exact ⟨he, fun k hk =>
                            hfr k (List.mem_cons_of_mem _ hk)⟩
                      · refine List.Pairwise.cons ?_ h3
                        intro y hy
                        obtain ⟨_, hfr⟩ := h2 y hy
                        intro hkey
                        exact hfr (optionHashKey (some v'))
                          (List.mem_cons_self _ _) hkey.symm
                    · rintro ⟨h1, h2, h3⟩
                      have hlen : set.length - (found + 1) ≤ rest.length := by
                        simp at h1; omega
                      refine ⟨hlen, ?_, ?_⟩
                      · intro x hx
                        obtain ⟨he, hfr⟩ := h2 x (List.mem_cons_of_mem _ hx)
                        refine ⟨he, ?_⟩
                        intro k hk
                        rcases List.mem_cons.mp hk with h | h
                        · rw [h]
                          have := List.rel_of_pairwise_cons h3 hx
                          exact fun hkey => this hkey.symm
                        · exact hfr k h
                      · exact h3.of_cons
  termination_by l _ _ => l.length

/-- C8: the `expr_maybe_list_starts_with` contract.  The scan succeeds iff
the sequence is at least `|set|` long, each of the first `|set|` elements
is `Some` formula belonging to `set`, and the Rust hash values of those
elements are pairwise distinct — so a `None` among the scanned elements
fails immediately, and the same formula occurring twice cannot satisfy two
distinct required elements: `maybe_starts_with([Some a, Some a], set)` is
false for every two-element required set. -/
theorem c8_maybe_starts_with_contract :
    (∀ (l : List (Option Expr)) (set : ExprSet),
      expr_maybe_list_starts_with l set = true ↔
        set.length ≤ l.length ∧
        (∀ x ∈ l.take set.length, ∃ e, x = some e ∧ set.contains e = true) ∧
        (l.take set.length).Pairwise
          (fun x y => optionHashKey x ≠ optionHashKey y)) ∧
    (∀ (set : ExprSet) (l2 : List (Option Expr)), 1 ≤ set.length →
      expr_maybe_list_starts_with (none :: l2) set = false) ∧
    (∀ (a : Expr) (set : ExprSet), set.length = 2 →
      expr_maybe_list_starts_with [some a, some a] set = false) := by
  refine ⟨?_, ?_, ?_⟩
  · intro l set
    have h := expr_maybe_go_spec set l 0 []
    simp only [List.not_mem_nil, false_implies, implies_true, and_true,
      Nat.sub_zero] at h
    rw [expr_maybe_list_starts_with, h]
  · intro set l2 h1
    rw [expr_maybe_list_starts_with]
    cases hgo : expr_maybe_list_starts_with_go set (none :: l2) 0 [] with
    | false => rfl
    | true =>
        obtain ⟨ha, hb, hcp⟩ := (expr_maybe_go_spec set _ 0 []).mp hgo
        have hn : set.length - 0 = (set.length - 1) + 1 := by omega
        rw [hn, List.take_succ_cons] at hb
        obtain ⟨⟨e, he, _⟩, _⟩ := hb none (List.mem_cons_self _ _)
        exact Option.noConfusion he
  · intro a set h2
    rw [expr_maybe_list_starts_with]
    cases hgo : expr_maybe_list_starts_with_go set [some a, some a] 0 [] with
    | false => rfl
    | true =>
        obtain ⟨ha, hb, hcp⟩ := (expr_maybe_go_spec set _ 0 []).mp hgo
        rw [h2] at hcp
        simp only [Nat.sub_zero, List.take_succ_cons, List.take_nil,
          List.take_cons] at hcp
        have := List.rel_of_pairwise_cons hcp (List.mem_cons_self _ _)
        exact (this rfl).elim

/-- Witness for C8: `maybe_starts_with([Some "A", Some "A"], {"A","B"})` is
false, and a `None` first element fails for the singleton set `{"A"}`. -/
theorem c8_maybe_starts_with_contract_witness :
    expr_maybe_list_starts_with [some (.Literal ⟨"A"⟩), some (.Literal ⟨"A"⟩)]
      [.Literal ⟨"A"⟩, .Literal ⟨"B"⟩] = false ∧
    expr_maybe_list_starts_with [none] [.Literal ⟨"A"⟩] = false :=
  ⟨c8_maybe_starts_with_contract.2.2 (.Literal ⟨"A"⟩)
      [.Literal ⟨"A"⟩, .Literal ⟨"B"⟩] rfl,
    c8_maybe_starts_with_contract.2.1 [.Literal ⟨"A"⟩] [] (by simp)⟩

end Yggdrasil
namespace Yggdrasil

theorem validate_groupL (x : Expr) (vars : List Variable) :
    validate (.Group x) vars = validate x vars := by
  rw [validate.eq_def, validate.eq_def]; simp only [Expr.simplify]

theorem validate_group2L (x : Expr) (vars : List Variable) :
    validate (.Group2 x) vars = validate x vars := by
  rw [validate.eq_def, validate.eq_def]; simp only [Expr.simplify]

theorem validate_group3L (x : Expr) (vars : List Variable) :
    validate (.Group3 x) vars = validate x vars := by
  rw [validate.eq_def, validate.eq_def]; simp only [Expr.simplify]

theorem engineBind_ok (y : EngineResult Unit) :
    ((Except.ok () : EngineResult Unit) >>= fun _ => y) = y := rfl

theorem engineBind_error (e : EngineError) (y : EngineResult Unit) :
    ((Except.error e : EngineResult Unit) >>= fun _ => y) = .error e := rfl

mutual
theorem validate_freeVars_spec :
    (e : Expr) → (scope : List Variable) → noGenerics e = true →
      validate e scope =
        match (freeVars e scope).head? with
        | none => .ok ()
        | some n => .error (.ValidationError (.InvalidVariable n))
  | .Literal l, scope, _ => by
      rw [validate.eq_def]
      simp [Expr.simplify, validateSimplified, freeVars]
  | .Generic g, scope, h => absurd h (by simp [noGenerics])
  | .Variable v, scope, _ => by
      rw [validate.eq_def]
      by_cases hv : v ∈ scope <;>
        simp [Expr.simplify, validateSimplified, freeVars, hv]
  | .Tautology, scope, _ => by
      rw [validate.eq_def]
      simp [Expr.simplify, validateSimplified, freeVars]
  | .Contradiction, scope, _ => by
      rw [validate.eq_def]
      simp [Expr.simplify, validateSimplified, freeVars]
  | .Group x, scope, h => by
      rw [validate_groupL,
        validate_freeVars_spec x scope (by simpa [noGenerics] using h)]
      simp [freeVars]
  | .Group2 x, scope, h => by
      rw [validate_group2L,
        validate_freeVars_spec x scope (by simpa [noGenerics] using h)]
      simp [freeVars]
  | .Group3 x, scope, h => by
      rw [validate_group3L,
        validate_freeVars_spec x scope (by simpa [noGenerics] using h)]
      simp [freeVars]
  | .Function f args, scope, h => by
      rw [validate.eq_def]
      simp only [Expr.simplify, validateSimplified]
      rw [validateList_freeVars_spec args scope
        (by simpa [noGenerics] using h)]
      simp [freeVars]
  | .Predicate p args, scope, h => by
      rw [validate.eq_def]
      simp only [Expr.simplify, validateSimplified]
      rw [validateList_freeVars_spec args scope
        (by simpa [noGenerics] using h)]
      simp [freeVars]
  | .Not x, scope, h => by
      rw [validate.eq_def]
      simp only [Expr.simplify, validateSimplified]
      rw [validate_freeVars_spec x scope (by simpa [noGenerics] using h)]
      simp [freeVars]
  | .And l r, scope, h => by
      have hng : noGenerics l = true ∧ noGenerics r = true := by
        simpa [noGenerics, Bool.and_eq_true] using h
      rw [validate.eq_def]
      simp only [Expr.simplify, validateSimplified]
      rw [validate_freeVars_spec l scope hng.1,
        validate_freeVars_spec r scope hng.2]
      simp only [freeVars]
      cases hfl : freeVars l scope with
      | nil => simp [engineBind_ok]
      | cons n rest => simp [engineBind_error]
  | .Or l r, scope, h => by
      have hng : noGenerics l = true ∧ noGenerics r = true := by
        simpa [noGenerics, Bool.and_eq_true] using h
      rw [validate.eq_def]
      simp only [Expr.simplify, validateSimplified]
      rw [validate_freeVars_spec l scope hng.1,
        validate_freeVars_spec r scope hng.2]
      simp only [freeVars]
      cases hfl : freeVars l scope with
      | nil => simp [engineBind_ok]
      | cons n rest => simp [engineBind_error]
  | .Xor l r, scope, h => by
      have hng : noGenerics l = true ∧ noGenerics r = true := by
        simpa [noGenerics, Bool.and_eq_true] using h
      rw [validate.eq_def]
      simp only [Expr.simplify, validateSimplified]
      rw [validate_freeVars_spec l scope hng.1,
        validate_freeVars_spec r scope hng.2]
      simp only [freeVars]
      cases hfl : freeVars l scope with
      | nil => simp [engineBind_ok]
      | cons n rest => simp [engineBind_error]
  | .Conditional l r, scope, h => by
      have hng : noGenerics l = true ∧ noGenerics r = true := by
        simpa [noGenerics, Bool.and_eq_true] using h
      rw [validate.eq_def]
      simp only [Expr.simplify, validateSimplified]
      rw [validate_freeVars_spec l scope hng.1,
        validate_freeVars_spec r scope hng.2]
      simp only [freeVars]
      cases hfl : freeVars l scope with
      | nil => simp [engineBind_ok]
      | cons n rest => simp [engineBind_error]
  | .Biconditional l r, scope, h => by
      have hng : noGenerics l = true ∧ noGenerics r = true := by
        simpa [noGenerics, Bool.and_eq_true] using h
      rw [validate.eq_def]
      simp only [Expr.simplify, validateSimplified]
      rw [validate_freeVars_spec l scope hng.1,
        validate_freeVars_spec r scope hng.2]
      simp only [freeVars]
      cases hfl : freeVars l scope with
      | nil => simp [engineBind_ok]
      | cons n rest => simp [engineBind_error]
  | .Universal i x, scope, h => by
      rw [validate.eq_def]
      simp only [Expr.simplify, validateSimplified]
      rw [validate_freeVars_spec x (varsInsert scope i)
        (by simpa [noGenerics] using h)]
      simp [freeVars]
  | .Existential i x, scope, h => by
      rw [validate.eq_def]
      simp only [Expr.simplify, validateSimplified]
      rw [validate_freeVars_spec x (varsInsert scope i)
        (by simpa [noGenerics] using h)]
      simp [freeVars]
  | .UnknownOperator l op r, scope, h => by
      have hng : noGenerics l = true ∧ noGenerics r = true := by
        simpa [noGenerics, Bool.and_eq_true] using h
      rw [validate.eq_def]
      simp only [Expr.simplify, validateSimplified]
      rw [validate_freeVars_spec l scope hng.1,
        validate_freeVars_spec r scope hng.2]
      simp only [freeVars]
      cases hfl : freeVars l scope with
      | nil => simp [engineBind_ok]
      | cons n rest => simp [engineBind_error]

theorem validateList_freeVars_spec :
    (args : List Expr) → (scope : List Variable) → noGenericsList args = true →
      validateList args scope =
        match (freeVarsList args scope).head? with
        | none => .ok ()
        | some n => .error (.ValidationError (.InvalidVariable n))
  | [], scope, _ => by
      rw [validateList.eq_def]
      simp [freeVarsList]
  | a :: as, scope, h => by
      have hng : noGenerics a = true ∧ noGenericsList as = true := by
        simpa [noGenericsList, Bool.and_eq_true] using h
      rw [validateList.eq_def]
      simp only []
      rw [validate_freeVars_spec a scope hng.1,
        validateList_freeVars_spec as scope hng.2]
      simp only [freeVarsList]
      cases hfl : freeVars a scope with
      | nil => simp [engineBind_ok]
      | cons n rest => simp [engineBind_error]
end

end Yggdrasil
namespace Yggdrasil

/-- C6: quantifier scoping in validation.  `validate_syntax` succeeds on
the parse of `"∀x P(x)"`, where the only variable occurrence is bound by
the enclosing universal quantifier; the parse of `"P(x)"` alone fails with
`InvalidVariable("x")`; and in general, on any generic-free formula,
`validate` succeeds exactly when no out-of-scope variable occurrence
exists, and otherwise reports the first such occurrence (in its top-down,
binder-extended traversal order) as `InvalidVariable(name)`. -/
theorem c6_quantifier_scoping :
    validate_syntax (.Universal ⟨"x"⟩ (.Predicate ⟨"P"⟩ [.Variable ⟨"x"⟩])) =
      .ok () ∧
    validate_syntax (.Predicate ⟨"P"⟩ [.Variable ⟨"x"⟩]) =
      .error (.ValidationError (.InvalidVariable "x")) ∧
    (∀ (e : Expr) (scope : List Variable), noGenerics e = true →
      validate e scope =
        match (freeVars e scope).head? with
        | none => .ok ()
        | some n => .error (.ValidationError (.InvalidVariable n))) := by
  refine ⟨?_, ?_, validate_freeVars_spec⟩
  · rw [ validate_syntax, validate_freeVars_spec _ _
      (by simp [noGenerics, noGenericsList])]
    simp [freeVars, freeVarsList, varsInsert]
  · rw [ validate_syntax, validate_freeVars_spec _ _
      (by simp [noGenerics, noGenericsList])]
    simp [freeVars, freeVarsList, varsInsert]

/-- Witness for C6's general clause at the unbound variable `y` and at a
bound occurrence under a quantifier. -/
theorem c6_quantifier_scoping_witness :
    validate (.Variable ⟨"y"⟩) [] =
      .error (.ValidationError (.InvalidVariable "y")) ∧
    validate (.Existential ⟨"y"⟩ (.Variable ⟨"y"⟩)) [] = .ok () := by
  constructor
  · rw [c6_quantifier_scoping.2.2 (.Variable ⟨"y"⟩) []
      (by simp [noGenerics])]
    simp [freeVars]
  · rw [c6_quantifier_scoping.2.2 (.Existential ⟨"y"⟩ (.Variable ⟨"y"⟩)) []
      (by simp [noGenerics])]
    simp [freeVars, varsInsert]

end Yggdrasil

namespace Yggdrasil
namespace Chumsky

theorem parserF_succ (n : Nat) :
    parserF (n + 1) =
      tierB (tierA (lowerLevels (parserF n) (constant_exprF (n + 1)) (n + 1))) :=
  rfl


theorem chainTail_length (k : Nat) : (chainTail k).length = 4 * k := by
  induction k with
  | zero => rfl
  | succ k ih => simp [chainTail, ih]; omega

theorem lowerLevels_P_nil (expr : Parser Expr) (cexpr : Parser ConstantExpr)
    (k : Nat) (ctx : ContextType) (pos cnt : Nat) (errs : List PErr) :
    lowerLevels expr cexpr (k + 1) ctx ⟨['P'], pos, cnt, errs⟩ =
      some (.Literal ⟨"P"⟩, ⟨[], pos + 1, cnt, errs⟩) := rfl

theorem lowerLevels_P_cons (expr : Parser Expr) (cexpr : Parser ConstantExpr)
    (k : Nat) (ctx : ContextType) (pos cnt : Nat) (errs : List PErr)
    (u : List Char) :
    lowerLevels expr cexpr (k + 1) ctx ⟨'P' :: ' ' :: '&' :: u, pos, cnt, errs⟩ =
      some (.Literal ⟨"P"⟩, ⟨'&' :: u, pos + 2, cnt, errs⟩) := rfl

theorem lowerLevels_spP_nil (expr : Parser Expr) (cexpr : Parser ConstantExpr)
    (k : Nat) (ctx : ContextType) (pos cnt : Nat) (errs : List PErr) :
    lowerLevels expr cexpr (k + 1) ctx ⟨[' ', 'P'], pos, cnt, errs⟩ =
      some (.Literal ⟨"P"⟩, ⟨[], pos + 2, cnt, errs⟩) := rfl

theorem lowerLevels_spP_cons (expr : Parser Expr) (cexpr : Parser ConstantExpr)
    (k : Nat) (ctx : ContextType) (pos cnt : Nat) (errs : List PErr)
    (u : List Char) :
    lowerLevels expr cexpr (k + 1) ctx
      ⟨' ' :: 'P' :: ' ' :: '&' :: u, pos, cnt, errs⟩ =
      some (.Literal ⟨"P"⟩, ⟨'&' :: u, pos + 3, cnt, errs⟩) := rfl

theorem scanInnerA_step_nil (expr : Parser Expr) (cexpr : Parser ConstantExpr)
    (k : Nat) (ctx : ContextType) (pos cnt : Nat) (errs : List PErr) :
    scanInnerA (lowerLevels expr cexpr (k + 1)) ctx
      ⟨scanRem 0, pos, cnt, errs⟩ =
      some ((pos, pos + 1), ⟨[], pos + 3, cnt, errs⟩) := rfl

theorem scanInnerA_step_cons (expr : Parser Expr) (cexpr : Parser ConstantExpr)
    (k m : Nat) (ctx : ContextType) (pos cnt : Nat) (errs : List PErr) :
    scanInnerA (lowerLevels expr cexpr (k + 1)) ctx
      ⟨scanRem (m + 1), pos, cnt, errs⟩ =
      some ((pos, pos + 1), ⟨scanRem m, pos + 4, cnt, errs⟩) := rfl

theorem scanInnerA_empty (expr : Parser Expr) (cexpr : Parser ConstantExpr)
    (k : Nat) (ctx : ContextType) (pos cnt : Nat) (errs : List PErr) :
    scanInnerA (lowerLevels expr cexpr (k + 1)) ctx ⟨[], pos, cnt, errs⟩ =
      none := rfl


end Chumsky
end Yggdrasil

namespace Yggdrasil
namespace Chumsky

theorem pthen_eq_some {α β : Type} {A : Parser α} {B : Parser β}
    {ctx : ContextType} {s s1 s2 : PState} {a : α} {b : β}
    (hA : A ctx s = some (a, s1)) (hB : B ctx s1 = some (b, s2)) :
    pthen A B ctx s = some ((a, b), s2) := by
  simp only [pthen, hA, hB]

theorem pthen_fst_none {α β : Type} {A : Parser α} {B : Parser β}
    {ctx : ContextType} {s : PState} (hA : A ctx s = none) :
    pthen A B ctx s = none := by
  simp only [pthen, hA]

theorem pthen_snd_none {α β : Type} {A : Parser α} {B : Parser β}
    {ctx : ContextType} {s s1 : PState} {a : α}
    (hA : A ctx s = some (a, s1)) (hB : B ctx s1 = none) :
    pthen A B ctx s = none := by
  simp only [pthen, hA, hB]

theorem pchoice_cons_some {α : Type} {p : Parser α} {ps : List (Parser α)}
    {ctx : ContextType} {s : PState} {r : α × PState}
    (h : p ctx s = some r) : pchoice (p :: ps) ctx s = some r := by
  simp only [pchoice, h]

theorem pchoice_cons_none {α : Type} {p : Parser α} {ps : List (Parser α)}
    {ctx : ContextType} {s : PState}
    (h : p ctx s = none) : pchoice (p :: ps) ctx s = pchoice ps ctx s := by
  simp only [pchoice, h]

theorem ppadded_eq_some {α : Type} {p : Parser α} {ctx : ContextType}
    {s s' : PState} {a : α} (h : p ctx (skipWs s) = some (a, s')) :
    ppadded p ctx s = some (a, skipWs s') := by
  simp only [ppadded, h]

theorem prepeatGo_scanA_empty (expr : Parser Expr) (cexpr : Parser ConstantExpr)
    (k : Nat) : ∀ (f : Nat) (ctx : ContextType) (pos cnt : Nat)
      (errs : List PErr),
    prepeatGo (scanInnerA (lowerLevels expr cexpr (k + 1))) f ctx
      ⟨[], pos, cnt, errs⟩ = some ([], ⟨[], pos, cnt, errs⟩)
  | 0, _, _, _, _ => rfl
  | f + 1, ctx, pos, cnt, errs => by
      simp only [prepeatGo, scanInnerA_empty]

theorem scanGo_spec (expr : Parser Expr) (cexpr : Parser ConstantExpr)
    (kq : Nat) :
    ∀ (k f : Nat), k + 1 ≤ f → ∀ (ctx : ContextType) (pos cnt : Nat)
      (errs : List PErr),
    ∃ (l : List (Nat × Nat)) (p : Nat), l ≠ [] ∧
      prepeatGo (scanInnerA (lowerLevels expr cexpr (kq + 1))) f ctx
        ⟨scanRem k, pos, cnt, errs⟩ = some (l, ⟨[], p, cnt, errs⟩) := by
  intro k
  induction k with
  | zero =>
      intro f hf ctx pos cnt errs
      obtain ⟨f', rfl⟩ : ∃ f', f = f' + 1 := ⟨f - 1, by omega⟩
      refine ⟨[(pos, pos + 1)], pos + 3, by simp, ?_⟩
      simp only [prepeatGo, scanInnerA_step_nil,
        prepeatGo_scanA_empty expr cexpr kq f']
  | succ m ih =>
      intro f hf ctx pos cnt errs
      obtain ⟨f', rfl⟩ : ∃ f', f = f' + 1 := ⟨f - 1, by omega⟩
      obtain ⟨l, p, hne, hl⟩ := ih f' (by omega) ctx (pos + 4) cnt errs
      refine ⟨(pos, pos + 1) :: l, p, by simp, ?_⟩
      simp only [prepeatGo, scanInnerA_step_cons, hl]

theorem opPartA_chain (ctx : ContextType) (q cnt : Nat) (errs : List PErr)
    (w : List Char) :
    ppadded (pthenIgnore (prewind (ptoSpan (pregexChars [['∧'], ['*'], ['&']])))
        (pregexChars [['∧'], ['*'], ['&']])) ctx
      ⟨'&' :: ' ' :: 'P' :: w, q, cnt, errs⟩ =
      some ((q, q + 1), ⟨'P' :: w, q + 2, cnt, errs⟩) := rfl

theorem opPartCond_nil (ctx : ContextType) (q cnt : Nat) (errs : List PErr) :
    ppadded (pthenIgnore (prewind (ptoSpan (pregexChars [['→'], ['-', '>']])))
        (pregexChars [['→'], ['-', '>']])) ctx ⟨[], q, cnt, errs⟩ = none := rfl

theorem opPartBicond_nil (ctx : ContextType) (q cnt : Nat) (errs : List PErr) :
    ppadded (pthenIgnore
        (prewind (ptoSpan (pregexChars [['↔'], ['<', '-', '>']])))
        (pregexChars [['↔'], ['<', '-', '>']])) ctx ⟨[], q, cnt, errs⟩ =
      none := rfl

theorem infix_op_set_first_ambig {E R : Type} {atom : Parser E}
    {op1 : Parser String} {into1 : E → E → R}
    {rest : List (Parser String × (E → E → R))} {fallback : R}
    {ctx : ContextType} {s s1 s2 s3 s4 : PState} {a b : E} {sp : Nat × Nat}
    {l : List (Nat × Nat)} {last : Nat × Nat}
    (h1 : atom ctx s = some (a, s1))
    (h2 : ppadded (pthenIgnore (prewind (ptoSpan op1)) op1) ctx s1 =
      some (sp, s2))
    (h3 : atom ctx s2 = some (b, s3))
    (h4 : prepeated (ppadded (pthenIgnore
        (ptoSpan (pchoice (op1 :: List.map Prod.fst rest)))
        (porNot atom))) ctx s3 = some (l, s4))
    (h5 : l.getLast? = some last) :
    infix_op_set atom ((op1, into1) :: rest) fallback ctx s =
      some (fallback, { s4 with errs := s4.errs ++
        [⟨min sp.1 last.1, max sp.2 last.2, ambiguityMsg⟩] }) := by
  have hchain := pthen_eq_some (pthen_eq_some (pthen_eq_some h1 h2) h3) h4
  apply pchoice_cons_some
  simp only [List.map, hchain, h5]

end Chumsky
end Yggdrasil

namespace Yggdrasil
namespace Chumsky

theorem tierA_chain (expr : Parser Expr) (cexpr : Parser ConstantExpr)
    (kq m : Nat) (ctx : ContextType) (pos cnt : Nat) (errs : List PErr) :
    ∃ (p st sp : Nat),
      tierA (lowerLevels expr cexpr (kq + 1)) ctx
        ⟨'P' :: chainTail (m + 2), pos, cnt, errs⟩ =
      some (.Invalid,
        ⟨[], p, cnt, errs ++ [⟨st, sp, ambiguityMsg⟩]⟩) := by
  have h1 : lowerLevels expr cexpr (kq + 1) ctx
      ⟨'P' :: chainTail (m + 2), pos, cnt, errs⟩ =
      some (.Literal ⟨"P"⟩,
        ⟨'&' :: ' ' :: 'P' :: chainTail (m + 1), pos + 2, cnt, errs⟩) :=
    lowerLevels_P_cons expr cexpr kq ctx pos cnt errs
      (' ' :: 'P' :: chainTail (m + 1))
  have h2 := opPartA_chain ctx (pos + 2) cnt errs (chainTail (m + 1))
  have h3 : lowerLevels expr cexpr (kq + 1) ctx
      ⟨'P' :: chainTail (m + 1), pos + 4, cnt, errs⟩ =
      some (.Literal ⟨"P"⟩, ⟨scanRem m, pos + 6, cnt, errs⟩) :=
    lowerLevels_P_cons expr cexpr kq ctx (pos + 4) cnt errs
      (' ' :: 'P' :: chainTail m)
  have hflen : m + 1 ≤ (scanRem m).length + 1 := by
    simp [scanRem, chainTail_length]
    omega
  obtain ⟨l, p, hne, hgo⟩ := scanGo_spec expr cexpr kq m
    ((scanRem m).length + 1) hflen ctx (pos + 6) cnt errs
  have hprep : prepeated (scanInnerA (lowerLevels expr cexpr (kq + 1))) ctx
      ⟨scanRem m, pos + 6, cnt, errs⟩ = some (l, ⟨[], p, cnt, errs⟩) := hgo
  have hlast : ∃ last, l.getLast? = some last := by
    cases hl : l.getLast? with
    | some x => exact ⟨x, rfl⟩
    | none =>
        have h := List.getLast?_isSome.mpr hne
        rw [hl] at h
        exact absurd h (by simp)
  obtain ⟨last, hlast⟩ := hlast
  have hinfix : infix_op_set (lowerLevels expr cexpr (kq + 1)) tierAOps
      Expr.Invalid ctx ⟨'P' :: chainTail (m + 2), pos, cnt, errs⟩ =
      some (Expr.Invalid, ⟨[], p, cnt, errs ++
        [⟨min (pos + 2) last.1, max (pos + 3) last.2, ambiguityMsg⟩]⟩) :=
    infix_op_set_first_ambig h1 h2 h3 hprep hlast
  refine ⟨p, min (pos + 2) last.1, max (pos + 3) last.2, ?_⟩
  have hch : pchoice [infix_op_set (lowerLevels expr cexpr (kq + 1)) tierAOps
      Expr.Invalid, lowerLevels expr cexpr (kq + 1)] ctx
      ⟨'P' :: chainTail (m + 2), pos, cnt, errs⟩ =
      some (Expr.Invalid, ⟨[], p, cnt, errs ++
        [⟨min (pos + 2) last.1, max (pos + 3) last.2, ambiguityMsg⟩]⟩) :=
    pchoice_cons_some hinfix
  show ppadded (pchoice [infix_op_set (lowerLevels expr cexpr (kq + 1))
      tierAOps Expr.Invalid, lowerLevels expr cexpr (kq + 1)]) ctx
      ⟨'P' :: chainTail (m + 2), pos, cnt, errs⟩ = _
  have hsk : skipWs ⟨'P' :: chainTail (m + 2), pos, cnt, errs⟩ =
      ⟨'P' :: chainTail (m + 2), pos, cnt, errs⟩ := rfl
  simp only [ppadded, hsk, hch]
  rfl

theorem infix_op_set2_none {E R : Type} {atom : Parser E}
    {op1 op2 : Parser String} {into1 into2 : E → E → R} {fallback : R}
    {ctx : ContextType} {s : PState}
    (h1 : pthen (pthen (pthen atom
        (ppadded (pthenIgnore (prewind (ptoSpan op1)) op1))) atom)
        (prepeated (ppadded (pthenIgnore (ptoSpan (pchoice [op1, op2]))
          (porNot atom)))) ctx s = none)
    (h2 : pthen (pthen (pthen atom
        (ppadded (pthenIgnore (prewind (ptoSpan op2)) op2))) atom)
        (prepeated (ppadded (pthenIgnore (ptoSpan (pchoice [op1, op2]))
          (porNot atom)))) ctx s = none) :
    infix_op_set atom [(op1, into1), (op2, into2)] fallback ctx s = none := by
  refine Eq.trans (pchoice_cons_none (by simp only [List.map, h1]))
    (Eq.trans (pchoice_cons_none (by simp only [List.map, h2])) rfl)

end Chumsky
end Yggdrasil

namespace Yggdrasil
namespace Chumsky

/-- On the chain `P & P & ... & P` with `m + 2` conjunctions, the parser
yields the `Invalid` fallback and exactly one accumulated diagnostic — the
non-associativity message. -/
theorem parse_chain (m : Nat) :
    ∃ st sp, parse (chainStr (m + 2)) =
      (some .Invalid, [⟨st, sp, ambiguityMsg⟩]) := by
  obtain ⟨p1, st1, sp1, htier⟩ := tierA_chain (parserF (4 * m + 9))
    (constant_exprF (4 * m + 9 + 1)) (4 * m + 9) m [] 0 0 []
  refine ⟨st1, sp1, ?_⟩
  have hinfixB : infix_op_set
      (tierA (lowerLevels (parserF (4 * m + 9)) (constant_exprF (4 * m + 9 + 1))
        (4 * m + 9 + 1)))
      tierBOps Expr.Invalid []
      ⟨'P' :: chainTail (m + 2), 0, 0, []⟩ = none :=
    infix_op_set2_none
      (pthen_fst_none (pthen_fst_none (pthen_snd_none htier
        (opPartCond_nil [] p1 0 ([] ++ [⟨st1, sp1, ambiguityMsg⟩])))))
      (pthen_fst_none (pthen_fst_none (pthen_snd_none htier
        (opPartBicond_nil [] p1 0 ([] ++ [⟨st1, sp1, ambiguityMsg⟩])))))
  have hch2 : pchoice [infix_op_set
      (tierA (lowerLevels (parserF (4 * m + 9)) (constant_exprF (4 * m + 9 + 1))
        (4 * m + 9 + 1))) tierBOps Expr.Invalid,
      tierA (lowerLevels (parserF (4 * m + 9)) (constant_exprF (4 * m + 9 + 1))
        (4 * m + 9 + 1))] []
      ⟨'P' :: chainTail (m + 2), 0, 0, []⟩ =
      some (Expr.Invalid,
        ⟨[], p1, 0, [] ++ [⟨st1, sp1, ambiguityMsg⟩]⟩) :=
    Eq.trans (pchoice_cons_none hinfixB) (pchoice_cons_some htier)
  have hrun : parserF (4 * m + 9 + 1) []
      ⟨'P' :: chainTail (m + 2), 0, 0, []⟩ =
      some (Expr.Invalid,
        ⟨[], p1, 0, [] ++ [⟨st1, sp1, ambiguityMsg⟩]⟩) := by
    rw [parserF_succ]
    show ppadded (pchoice [infix_op_set
      (tierA (lowerLevels (parserF (4 * m + 9)) (constant_exprF (4 * m + 9 + 1))
        (4 * m + 9 + 1))) tierBOps Expr.Invalid,
      tierA (lowerLevels (parserF (4 * m + 9)) (constant_exprF (4 * m + 9 + 1))
        (4 * m + 9 + 1))]) []
      ⟨'P' :: chainTail (m + 2), 0, 0, []⟩ = _
    have hsk : skipWs ⟨'P' :: chainTail (m + 2), 0, 0, []⟩ =
        ⟨'P' :: chainTail (m + 2), 0, 0, []⟩ := rfl
    simp only [ppadded, hsk, hch2]
    rfl
  have hlen : (chainStr (m + 2)).length = 4 * m + 9 := by
    show ('P' :: chainTail (m + 2)).length = 4 * m + 9
    simp [chainTail_length]
    omega
  have htl : (chainStr (m + 2)).toList = 'P' :: chainTail (m + 2) := rfl
  rw [parse.eq_def, htl, hlen, hrun]
  rfl

end Chumsky
end Yggdrasil

namespace Yggdrasil
namespace Chumsky

/-- C5: Non-associativity enforcement.  Parsing `"A & B & C"` fails: the
result is the `Invalid` fallback node and the accumulated errors consist of
the dedicated not-associative message (over span 2–7).  Parsing
`"(A & B) & C"` succeeds with no diagnostics, yielding
`(A ∧ B) ∧ C`.  A further occurrence of *any* operator of the And/Or/Xor
tier triggers the same diagnostic (`"A & B | C"`), and in general every
chain `P & P & ... & P` with at least two operators fails this way; at the
`infix_op_set` level, whenever `atom OP atom` has matched and the scan
ahead for further tier operators is non-empty, the parser emits the
ambiguity diagnostic (spanning from the first operator to the last extra
occurrence) and yields the fallback instead of left- or right-associating. -/
theorem c5_non_associativity :
    (parse "A & B & C" = (some .Invalid, [⟨2, 7, ambiguityMsg⟩]))
  ∧ (parse "(A & B) & C" =
      (some (.And (.And (.Literal ⟨"A"⟩) (.Literal ⟨"B"⟩)) (.Literal ⟨"C"⟩)),
        []))
  ∧ (parse "A & B | C" = (some .Invalid, [⟨2, 7, ambiguityMsg⟩]))
  ∧ (∀ m : Nat, ∃ st sp, parse (chainStr (m + 2)) =
      (some .Invalid, [⟨st, sp, ambiguityMsg⟩]))
  ∧ (∀ (E R : Type) (atom : Parser E) (op1 : Parser String)
      (into1 : E → E → R) (rest : List (Parser String × (E → E → R)))
      (fallback : R) (ctx : ContextType) (s s1 s2 s3 s4 : PState)
      (a b : E) (sp : Nat × Nat) (l : List (Nat × Nat)) (lst : Nat × Nat),
      atom ctx s = some (a, s1) →
      ppadded (pthenIgnore (prewind (ptoSpan op1)) op1) ctx s1 =
        some (sp, s2) →
      atom ctx s2 = some (b, s3) →
      prepeated (ppadded (pthenIgnore
          (ptoSpan (pchoice (op1 :: List.map Prod.fst rest)))
          (porNot atom))) ctx s3 = some (l, s4) →
      l.getLast? = some lst →
      infix_op_set atom ((op1, into1) :: rest) fallback ctx s =
        some (fallback, { s4 with errs := s4.errs ++
          [⟨min sp.1 lst.1, max sp.2 lst.2, ambiguityMsg⟩] })) := by
  refine ⟨rfl, rfl, rfl, parse_chain, ?_⟩
  intro E R atom op1 into1 rest fallback ctx s s1 s2 s3 s4 a b sp l lst
    h1 h2 h3 h4 h5
  exact infix_op_set_first_ambig h1 h2 h3 h4 h5

/-- Witness for C5: the general `infix_op_set` clause instantiated on the
concrete input `P&P&` with a one-operator tier. -/
theorem c5_non_associativity_witness :
    infix_op_set (pjust "P") [(pjust "&", fun a b : String => a ++ b)] "X"
      [] ⟨['P', '&', 'P', '&'], 0, 0, []⟩ =
      some ("X", ⟨[], 4, 0, [⟨min 1 3, max 2 4, ambiguityMsg⟩]⟩) :=
  c5_non_associativity.2.2.2.2 String String (pjust "P") (pjust "&")
    (fun a b => a ++ b) [] "X" []
    ⟨['P', '&', 'P', '&'], 0, 0, []⟩ ⟨['&', 'P', '&'], 1, 0, []⟩
    ⟨['P', '&'], 2, 0, []⟩ ⟨['&'], 3, 0, []⟩ ⟨[], 4, 0, []⟩
    "P" "P" (1, 2) [(3, 4)] (3, 4) rfl rfl rfl rfl rfl

end Chumsky
end Yggdrasil
